import Mathlib

/-!
Shallow embedding of the RouletteTogether socket server
(src/unnamed/part_008, final version, lines 272-767) together with the
shared type declarations (client/src/types.ts).

The server keeps an in-memory `Map<string, RoomData>` and mutates it from
socket event handlers.  Each handler is embedded as a pure function from the
handling socket's id, the event payload, and the current room store to the
updated store paired with the list of messages emitted during the handler.
`socket.emit(...)` becomes `Emit.toCaller`, `io.to(channel).emit(...)`
becomes `Emit.toChan channel` (the channel is a room name, or a socket id in
the case of `io.to(userId).emit('kicked')`).

Sources of nondeterminism in the JS code are passed in as explicit
parameters: `now : Nat` stands for a `Date.now()` call and `seed : Nat`
stands for the value drawn by `Math.random()` (the server never computes
with the seed, it only forwards it, so its numeric type is irrelevant to
the model).
-/

namespace RouletteTogether

/-- Participant, from types.ts: `{ id: string; name: string }` where `id` is
the socket id. -/
structure Participant where
  id : String
  name : String
deriving DecidableEq, Repr

/-- Rule, from types.ts: `{ id: string; label: string; weight: number }`. -/
structure Rule where
  id : String
  label : String
  weight : Int
deriving DecidableEq, Repr

/-- Room status, from the RoomData interface: 'waiting' | 'playing' | 'finished'. -/
inductive Status where
  | waiting
  | playing
  | finished
deriving DecidableEq, Repr

/-- GameMode, from types.ts: 'all_results' | 'winner_only' | 'loser_only'. -/
inductive GameMode where
  | all_results
  | winner_only
  | loser_only
deriving DecidableEq, Repr

/-- RoomType, from types.ts: 'roulette' | 'betting'. -/
inductive RoomType where
  | roulette
  | betting
deriving DecidableEq, Repr

/-- Drawing type tag, from types.ts DrawingData.odrawType: 'pin' | 'line'. -/
inductive DrawType where
  | pin
  | line
deriving DecidableEq, Repr

/-- DrawingData, from types.ts.  The numeric coordinates are opaque to the
server (it only stores and forwards drawings), so they are embedded as
integers. -/
structure DrawingData where
  odrawId : String
  odrawType : DrawType
  x : Int
  y : Int
  x2 : Option Int
  y2 : Option Int
  userId : String
  userName : String
deriving DecidableEq, Repr

/-- GameResult, from types.ts. -/
structure GameResult where
  participantId : String
  participantName : String
  ruleId : String
  ruleLabel : String
  order : Nat
  timestamp : Nat
deriving DecidableEq, Repr

/-- Bet, from types.ts: `{ odrederId, odrerName, ruleId, timestamp }`. -/
structure Bet where
  odrederId : String
  odrerName : String
  ruleId : String
  timestamp : Nat
deriving DecidableEq, Repr

/-- BettingState, from types.ts.  `winningRuleId?` is optional. -/
structure BettingState where
  bets : List Bet
  bettingOpen : Bool
  winningRuleId : Option String
  bettingTitle : String
deriving DecidableEq, Repr

/-- RoomData, from the server (part_008 lines 291-301).  `bettingState?` is
optional and present exactly for betting rooms. -/
structure RoomData where
  participants : List Participant
  rules : List Rule
  status : Status
  hostId : String
  gameMode : GameMode
  drawings : List DrawingData
  gameResults : List GameResult
  roomType : RoomType
  bettingState : Option BettingState
deriving DecidableEq, Repr

/-- EmoticonMessage, from types.ts. -/
structure EmoticonMessage where
  userId : String
  userName : String
  emoticon : String
  timestamp : Nat
deriving DecidableEq, Repr

/-- ChatMessage, from types.ts. -/
structure ChatMessage where
  userId : String
  userName : String
  message : String
  timestamp : Nat
deriving DecidableEq, Repr

/-- Notification type tag, from types.ts UserNotification.type: 'join' | 'leave'. -/
inductive NotifType where
  | join
  | leave
deriving DecidableEq, Repr

/-- UserNotification, from types.ts. -/
structure UserNotification where
  userName : String
  type : NotifType
  timestamp : Nat
deriving DecidableEq, Repr

/-- RoomSyncData, from types.ts: the payload of the `room_sync` message. -/
structure RoomSyncData where
  participants : List Participant
  rules : List Rule
  drawings : List DrawingData
  gameMode : GameMode
  status : Status
  hostId : String
  gameResults : List GameResult
  roomType : RoomType
  bettingState : Option BettingState
deriving DecidableEq, Repr

/-- Server-to-client messages, from the ServerToClientEvents interface of
types.ts (one constructor per event the final server actually emits). -/
inductive Msg where
  | participant_list (participants : List Participant)
  | rule_list (rules : List Rule)
  | game_started (simulationId : String) (seed : Nat)
  | host_status (isHost : Bool) (hostId : String)
  | game_mode_updated (mode : GameMode)
  | error_message (message : String)
  | emoticon_received (m : EmoticonMessage)
  | chat_received (m : ChatMessage)
  | user_notification (n : UserNotification)
  | kicked
  | room_destroyed
  | drawing_received (d : DrawingData)
  | room_sync (data : RoomSyncData)
  | game_reset
  | room_type (roomType : RoomType)
  | betting_state_updated (bs : BettingState)
  | betting_result (winningRuleId : String) (winners : List Participant) (losers : List Participant)
deriving DecidableEq, Repr

/-- One emitted message together with its destination: `toCaller` models
`socket.emit(...)` (unicast to the connection whose event is being handled),
`toChan c` models `io.to(c).emit(...)` (broadcast to channel `c`, which is a
room name, or a socket id for `io.to(userId)`). -/
inductive Emit where
  | toChan (channel : String) (msg : Msg)
  | toCaller (msg : Msg)
deriving DecidableEq, Repr

/-- The room store: the JS `Map<string, RoomData>` embedded as an
insertion-ordered association list. -/
abbrev Rooms := List (String × RoomData)

/-- Map lookup: `rooms.get(name)` returns the value of the first (in a real
JS Map, unique) entry with the given key. -/
def Rooms.get (name : String) : Rooms → Option RoomData
  | [] => none
  | (n, r) :: rest => if n = name then some r else Rooms.get name rest

/-- Map update: `rooms.set(name, r)` replaces the value at an existing key
(keys are unique in a JS Map, so replacing every matching entry coincides)
or else appends a new entry at the end. -/
def Rooms.set (name : String) (r : RoomData) (s : Rooms) : Rooms :=
  if s.any (fun nr => nr.1 = name) then
    s.map (fun nr => if nr.1 = name then (name, r) else nr)
  else s ++ [(name, r)]

/-- Map deletion: `rooms.delete(name)`. -/
def Rooms.del (name : String) (s : Rooms) : Rooms :=
  s.filter (fun nr => nr.1 ≠ name)

/-- The `join_room` handler (part_008 lines 322-382).  If the room is
absent it is created with the caller as host, empty rules/drawings/results,
default game mode, the requested room type (default 'roulette'), and — for
betting rooms — a fresh betting state.  Then the caller is appended to the
participant list, the updated participant and rule lists and a join
notification are broadcast, and host status / game mode / room type /
betting state are unicast to the caller. -/
def join_room (sid roomName userName : String) (roomType : Option RoomType)
    (now : Nat) (s : Rooms) : Rooms × List Emit :=
  let s1 :=
    if (Rooms.get roomName s).isSome then s
    else
      let newRoomType := roomType.getD RoomType.roulette
      Rooms.set roomName
        { participants := []
          rules := []
          status := Status.waiting
          hostId := sid
          gameMode := GameMode.all_results
          drawings := []
          gameResults := []
          roomType := newRoomType
          bettingState :=
            if newRoomType = RoomType.betting then
              some { bets := [], bettingOpen := true, winningRuleId := none,
                     bettingTitle := "내기" }
            else none } s
  match Rooms.get roomName s1 with
  | none => (s1, [])
  | some room =>
    let newParticipant : Participant := { id := sid, name := userName }
    let room1 := { room with participants := room.participants ++ [newParticipant] }
    let s2 := Rooms.set roomName room1 s1
    (s2,
      [Emit.toChan roomName (Msg.participant_list room1.participants),
       Emit.toChan roomName (Msg.rule_list room1.rules),
       Emit.toCaller (Msg.host_status (sid = room1.hostId) room1.hostId),
       Emit.toCaller (Msg.game_mode_updated room1.gameMode),
       Emit.toCaller (Msg.room_type room1.roomType)]
      ++ (match room1.roomType, room1.bettingState with
          | RoomType.betting, some bs => [Emit.toCaller (Msg.betting_state_updated bs)]
          | _, _ => [])
      ++ [Emit.toChan roomName
            (Msg.user_notification { userName := userName, type := NotifType.join,
                                     timestamp := now })])

/-- The `request_host_status` handler (part_008 lines 385-392): re-send the
host status to the caller; no mutation, no broadcast. -/
def request_host_status (sid roomName : String) (s : Rooms) : Rooms × List Emit :=
  match Rooms.get roomName s with
  | none => (s, [])
  | some room =>
    (s, [Emit.toCaller (Msg.host_status (sid = room.hostId) room.hostId)])

/-- The `set_game_mode` handler (part_008 lines 394-407): host-only; on
success store the mode and broadcast it. -/
def set_game_mode (sid roomName : String) (mode : GameMode) (s : Rooms) :
    Rooms × List Emit :=
  match Rooms.get roomName s with
  | none => (s, [])
  | some room =>
    if sid ≠ room.hostId then
      (s, [Emit.toCaller (Msg.error_message "방장만 게임 모드를 변경할 수 있습니다.")])
    else
      (Rooms.set roomName { room with gameMode := mode } s,
       [Emit.toChan roomName (Msg.game_mode_updated mode)])

/-- The `create_rule` handler (part_008 lines 409-421): host-only; append
the rule and broadcast the updated rule list. -/
def create_rule (sid roomName : String) (rule : Rule) (s : Rooms) :
    Rooms × List Emit :=
  match Rooms.get roomName s with
  | none => (s, [])
  | some room =>
    if sid ≠ room.hostId then
      (s, [Emit.toCaller (Msg.error_message "방장만 룰/벌칙을 추가할 수 있습니다.")])
    else
      let room1 := { room with rules := room.rules ++ [rule] }
      (Rooms.set roomName room1 s,
       [Emit.toChan roomName (Msg.rule_list room1.rules)])

/-- The `start_game` handler (part_008 lines 423-446): host-only; requires a
non-empty rule list; sets status to playing and broadcasts `game_started`
with a fresh simulation id (`Date.now().toString()`, here `toString now`)
and a fresh random seed (the `seed` parameter stands for `Math.random()`). -/
def start_game (sid roomName : String) (seed now : Nat) (s : Rooms) :
    Rooms × List Emit :=
  match Rooms.get roomName s with
  | none => (s, [])
  | some room =>
    if sid ≠ room.hostId then
      (s, [Emit.toCaller (Msg.error_message "방장만 게임을 시작할 수 있습니다.")])
    else if room.rules.length = 0 then
      (s, [Emit.toCaller (Msg.error_message "최소 1개 이상의 룰을 추가해주세요.")])
    else
      (Rooms.set roomName { room with status := Status.playing } s,
       [Emit.toChan roomName (Msg.game_started (toString now) seed)])

/-- The `send_emoticon` handler (part_008 lines 448-463): if the caller is a
participant, broadcast the emoticon; no mutation. -/
def send_emoticon (sid roomName emoticon : String) (now : Nat) (s : Rooms) :
    Rooms × List Emit :=
  match Rooms.get roomName s with
  | none => (s, [])
  | some room =>
    match room.participants.find? (fun p => p.id = sid) with
    | none => (s, [])
    | some participant =>
      (s, [Emit.toChan roomName (Msg.emoticon_received
            { userId := sid, userName := participant.name, emoticon := emoticon,
              timestamp := now })])

/-- The `send_chat` handler (part_008 lines 465-480): if the caller is a
participant, broadcast the chat message; no mutation. -/
def send_chat (sid roomName message : String) (now : Nat) (s : Rooms) :
    Rooms × List Emit :=
  match Rooms.get roomName s with
  | none => (s, [])
  | some room =>
    match room.participants.find? (fun p => p.id = sid) with
    | none => (s, [])
    | some participant =>
      (s, [Emit.toChan roomName (Msg.chat_received
            { userId := sid, userName := participant.name, message := message,
              timestamp := now })])

/-- The `draw_object` handler (part_008 lines 482-492): append the drawing
to the room and broadcast it. -/
def draw_object (sid roomName : String) (drawing : DrawingData) (s : Rooms) :
    Rooms × List Emit :=
  match Rooms.get roomName s with
  | none => (s, [])
  | some room =>
    (Rooms.set roomName { room with drawings := room.drawings ++ [drawing] } s,
     [Emit.toChan roomName (Msg.drawing_received drawing)])

/-- The `request_room_sync` handler (part_008 lines 495-512): unicast a full
snapshot of the room to the caller; no mutation, no broadcast. -/
def request_room_sync (sid roomName : String) (s : Rooms) : Rooms × List Emit :=
  match Rooms.get roomName s with
  | none => (s, [])
  | some room =>
    (s, [Emit.toCaller (Msg.room_sync
          { participants := room.participants
            rules := room.rules
            drawings := room.drawings
            gameMode := room.gameMode
            status := room.status
            hostId := room.hostId
            gameResults := room.gameResults
            roomType := room.roomType
            bettingState := room.bettingState })])

/-- The `report_result` handler (part_008 lines 515-528): accept only while
status is playing or when the sender is the host; drop the report if an
entry with the same participantId already exists (`findIndex !== -1`);
otherwise append it.  Nothing is ever emitted. -/
def report_result (sid roomName : String) (result : GameResult) (s : Rooms) :
    Rooms × List Emit :=
  match Rooms.get roomName s with
  | none => (s, [])
  | some room =>
    if room.status = Status.playing ∨ sid = room.hostId then
      if room.gameResults.any (fun r => r.participantId = result.participantId) then
        (s, [])
      else
        (Rooms.set roomName
          { room with gameResults := room.gameResults ++ [result] } s, [])
    else (s, [])

/-- The `clear_results` handler (part_008 lines 531-541): when the caller is
the host, clear results and drawings, set status back to waiting and
broadcast `game_reset`; otherwise do nothing (note: no error message is
sent to a non-host caller). -/
def clear_results (sid roomName : String) (s : Rooms) : Rooms × List Emit :=
  match Rooms.get roomName s with
  | none => (s, [])
  | some room =>
    if sid = room.hostId then
      (Rooms.set roomName
        { room with gameResults := [], drawings := [], status := Status.waiting } s,
       [Emit.toChan roomName Msg.game_reset])
    else (s, [])

/-- The `game_finished` handler (part_008 lines 544-550): when the caller is
the host, set status to finished; otherwise do nothing (no error message,
and nothing is emitted in either case). -/
def game_finished (sid roomName : String) (s : Rooms) : Rooms × List Emit :=
  match Rooms.get roomName s with
  | none => (s, [])
  | some room =>
    if sid = room.hostId then
      (Rooms.set roomName { room with status := Status.finished } s, [])
    else (s, [])

/-- The `kick_user` handler (part_008 lines 552-589): host-only, not
self-targeting; remove the first participant with the given id (splice at
`findIndex`), unicast `kicked` to the removed connection's channel, and
broadcast the updated participant list and a leave notification. -/
def kick_user (sid roomName userId : String) (now : Nat) (s : Rooms) :
    Rooms × List Emit :=
  match Rooms.get roomName s with
  | none => (s, [])
  | some room =>
    if sid ≠ room.hostId then
      (s, [Emit.toCaller (Msg.error_message "방장만 사용자를 강제 퇴장시킬 수 있습니다.")])
    else if userId = sid then
      (s, [Emit.toCaller (Msg.error_message "자기 자신을 강제 퇴장시킬 수 없습니다.")])
    else
      match room.participants.find? (fun p => p.id = userId) with
      | none => (s, [])
      | some kickedUser =>
        let participants1 := room.participants.eraseP (fun p => p.id = userId)
        (Rooms.set roomName { room with participants := participants1 } s,
         [Emit.toChan userId Msg.kicked,
          Emit.toChan roomName (Msg.participant_list participants1),
          Emit.toChan roomName (Msg.user_notification
            { userName := kickedUser.name, type := NotifType.leave, timestamp := now })])

/-- The `destroy_room` handler (part_008 lines 591-608): host-only;
broadcast `room_destroyed` and delete the room. -/
def destroy_room (sid roomName : String) (s : Rooms) : Rooms × List Emit :=
  match Rooms.get roomName s with
  | none => (s, [])
  | some room =>
    if sid ≠ room.hostId then
      (s, [Emit.toCaller (Msg.error_message "방장만 방을 파괴할 수 있습니다.")])
    else
      (Rooms.del roomName s, [Emit.toChan roomName Msg.room_destroyed])

/-- The `set_betting_title` handler (part_008 lines 613-624): only in a
betting room with a betting state; host-only; store the title and broadcast
the betting state. -/
def set_betting_title (sid roomName title : String) (s : Rooms) :
    Rooms × List Emit :=
  match Rooms.get roomName s with
  | none => (s, [])
  | some room =>
    if room.roomType = RoomType.betting then
      match room.bettingState with
      | none => (s, [])
      | some bs =>
        if sid ≠ room.hostId then
          (s, [Emit.toCaller (Msg.error_message "방장만 내기 제목을 설정할 수 있습니다.")])
        else
          let bs1 := { bs with bettingTitle := title }
          (Rooms.set roomName { room with bettingState := some bs1 } s,
           [Emit.toChan roomName (Msg.betting_state_updated bs1)])
    else (s, [])

/-- The `place_bet` handler (part_008 lines 627-656): only in a betting room
with a betting state; rejected when betting is closed or the caller is not a
participant; otherwise remove the caller's previous bet (filter) and append
the new one, then broadcast the betting state. -/
def place_bet (sid roomName ruleId : String) (now : Nat) (s : Rooms) :
    Rooms × List Emit :=
  match Rooms.get roomName s with
  | none => (s, [])
  | some room =>
    if room.roomType = RoomType.betting then
      match room.bettingState with
      | none => (s, [])
      | some bs =>
        if bs.bettingOpen = false then
          (s, [Emit.toCaller (Msg.error_message "베팅이 마감되었습니다.")])
        else
          match room.participants.find? (fun p => p.id = sid) with
          | none => (s, [Emit.toCaller (Msg.error_message "참가자만 베팅할 수 있습니다.")])
          | some participant =>
            let newBet : Bet :=
              { odrederId := sid, odrerName := participant.name, ruleId := ruleId,
                timestamp := now }
            let bs1 := { bs with
              bets := bs.bets.filter (fun b => b.odrederId ≠ sid) ++ [newBet] }
            (Rooms.set roomName { room with bettingState := some bs1 } s,
             [Emit.toChan roomName (Msg.betting_state_updated bs1)])
    else (s, [])

/-- The `close_betting` handler (part_008 lines 659-670): only in a betting
room with a betting state; host-only; set bettingOpen to false and
broadcast the betting state. -/
def close_betting (sid roomName : String) (s : Rooms) : Rooms × List Emit :=
  match Rooms.get roomName s with
  | none => (s, [])
  | some room =>
    if room.roomType = RoomType.betting then
      match room.bettingState with
      | none => (s, [])
      | some bs =>
        if sid ≠ room.hostId then
          (s, [Emit.toCaller (Msg.error_message "방장만 베팅을 마감할 수 있습니다.")])
        else
          let bs1 := { bs with bettingOpen := false }
          (Rooms.set roomName { room with bettingState := some bs1 } s,
           [Emit.toChan roomName (Msg.betting_state_updated bs1)])
    else (s, [])

/-- Winner computation of the `select_winner` handler (part_008 lines
684-696): the forEach loop pushes, for each bet whose bettor is still a
current participant, that participant into `winners` when the bet's ruleId
equals the selected one.  Embedded as a filterMap over the bets, which
builds the same list in the same order. -/
def selectWinners (participants : List Participant) (ruleId : String)
    (bets : List Bet) : List Participant :=
  bets.filterMap (fun bet =>
    match participants.find? (fun p => p.id = bet.odrederId) with
    | some participant => if bet.ruleId = ruleId then some participant else none
    | none => none)

/-- Loser computation of the `select_winner` handler (part_008 lines
684-696): the same loop pushes the participant into `losers` when the bet's
ruleId differs from the selected one. -/
def selectLosers (participants : List Participant) (ruleId : String)
    (bets : List Bet) : List Participant :=
  bets.filterMap (fun bet =>
    match participants.find? (fun p => p.id = bet.odrederId) with
    | some participant => if bet.ruleId = ruleId then none else some participant
    | none => none)

/-- The `select_winner` handler (part_008 lines 673-702): only in a betting
room with a betting state; host-only; record the winning ruleId, compute
winners and losers from the current bets and the live participant list, and
broadcast the betting state and the betting result. -/
def select_winner (sid roomName ruleId : String) (s : Rooms) :
    Rooms × List Emit :=
  match Rooms.get roomName s with
  | none => (s, [])
  | some room =>
    if room.roomType = RoomType.betting then
      match room.bettingState with
      | none => (s, [])
      | some bs =>
        if sid ≠ room.hostId then
          (s, [Emit.toCaller (Msg.error_message "방장만 당첨 결과를 선택할 수 있습니다.")])
        else
          let bs1 := { bs with winningRuleId := some ruleId }
          let winners := selectWinners room.participants ruleId bs.bets
          let losers := selectLosers room.participants ruleId bs.bets
          (Rooms.set roomName { room with bettingState := some bs1 } s,
           [Emit.toChan roomName (Msg.betting_state_updated bs1),
            Emit.toChan roomName (Msg.betting_result ruleId winners losers)])
    else (s, [])

/-- The `reset_betting` handler (part_008 lines 705-720): only in a betting
room with a betting state; host-only; replace the betting state with fresh
empty bets, betting open, no winning rule, same title; broadcast it. -/
def reset_betting (sid roomName : String) (s : Rooms) : Rooms × List Emit :=
  match Rooms.get roomName s with
  | none => (s, [])
  | some room =>
    if room.roomType = RoomType.betting then
      match room.bettingState with
      | none => (s, [])
      | some bs =>
        if sid ≠ room.hostId then
          (s, [Emit.toCaller (Msg.error_message "방장만 내기를 초기화할 수 있습니다.")])
        else
          let bs1 : BettingState :=
            { bets := [], bettingOpen := true, winningRuleId := none,
              bettingTitle := bs.bettingTitle }
          (Rooms.set roomName { room with bettingState := some bs1 } s,
           [Emit.toChan roomName (Msg.betting_state_updated bs1)])
    else (s, [])

/-- Per-room step of the `disconnect` handler (part_008 lines 727-759, the
body of the forEach): when the disconnecting socket is a participant of the
room, either destroy the room (host case: broadcast `room_destroyed` and
delete), or splice out that participant, broadcast the updated list and a
leave notification, and delete the room when it became empty.  Returns the
surviving room entry (if any) and the messages emitted for this room. -/
def disconnectRoom (sid : String) (now : Nat) (entry : String × RoomData) :
    Option (String × RoomData) × List Emit :=
  match entry.2.participants.find? (fun p => p.id = sid) with
  | none => (some entry, [])
  | some participant =>
    if sid = entry.2.hostId then
      (none, [Emit.toChan entry.1 Msg.room_destroyed])
    else
      if (entry.2.participants.eraseP (fun p => p.id = sid)).length = 0 then
        (none,
         [Emit.toChan entry.1
            (Msg.participant_list (entry.2.participants.eraseP (fun p => p.id = sid))),
          Emit.toChan entry.1 (Msg.user_notification
            { userName := participant.name, type := NotifType.leave, timestamp := now })])
      else
        (some (entry.1,
           { entry.2 with
             participants := entry.2.participants.eraseP (fun p => p.id = sid) }),
         [Emit.toChan entry.1
            (Msg.participant_list (entry.2.participants.eraseP (fun p => p.id = sid))),
          Emit.toChan entry.1 (Msg.user_notification
            { userName := participant.name, type := NotifType.leave, timestamp := now })])

/-- The `disconnect` handler (part_008 lines 724-760): iterate over every
room in insertion order, applying the per-room cleanup. -/
def disconnect (sid : String) (now : Nat) : Rooms → Rooms × List Emit
  | [] => ([], [])
  | entry :: rest =>
    let hd := disconnectRoom sid now entry
    let tl := disconnect sid now rest
    (match hd.1 with
     | some e => e :: tl.1
     | none => tl.1,
     hd.2 ++ tl.2)

/-- One inbound socket event, carrying the sender's socket id, the payload,
and — where the handler consults them — the values of `Date.now()` and
`Math.random()`. -/
inductive Event where
  | join_room (sid roomName userName : String) (roomType : Option RoomType) (now : Nat)
  | request_host_status (sid roomName : String)
  | set_game_mode (sid roomName : String) (mode : GameMode)
  | create_rule (sid roomName : String) (rule : Rule)
  | start_game (sid roomName : String) (seed now : Nat)
  | send_emoticon (sid roomName emoticon : String) (now : Nat)
  | send_chat (sid roomName message : String) (now : Nat)
  | draw_object (sid roomName : String) (drawing : DrawingData)
  | request_room_sync (sid roomName : String)
  | report_result (sid roomName : String) (result : GameResult)
  | clear_results (sid roomName : String)
  | game_finished (sid roomName : String)
  | kick_user (sid roomName userId : String) (now : Nat)
  | destroy_room (sid roomName : String)
  | set_betting_title (sid roomName title : String)
  | place_bet (sid roomName ruleId : String) (now : Nat)
  | close_betting (sid roomName : String)
  | select_winner (sid roomName ruleId : String)
  | reset_betting (sid roomName : String)
  | disconnect (sid : String) (now : Nat)
deriving DecidableEq, Repr

/-- Dispatch of one event to its handler. -/
def step (e : Event) (s : Rooms) : Rooms × List Emit :=
  match e with
  | Event.join_room sid roomName userName roomType now =>
      join_room sid roomName userName roomType now s
  | Event.request_host_status sid roomName => request_host_status sid roomName s
  | Event.set_game_mode sid roomName mode => set_game_mode sid roomName mode s
  | Event.create_rule sid roomName rule => create_rule sid roomName rule s
  | Event.start_game sid roomName seed now => start_game sid roomName seed now s
  | Event.send_emoticon sid roomName emoticon now =>
      send_emoticon sid roomName emoticon now s
  | Event.send_chat sid roomName message now => send_chat sid roomName message now s
  | Event.draw_object sid roomName drawing => draw_object sid roomName drawing s
  | Event.request_room_sync sid roomName => request_room_sync sid roomName s
  | Event.report_result sid roomName result => report_result sid roomName result s
  | Event.clear_results sid roomName => clear_results sid roomName s
  | Event.game_finished sid roomName => game_finished sid roomName s
  | Event.kick_user sid roomName userId now => kick_user sid roomName userId now s
  | Event.destroy_room sid roomName => destroy_room sid roomName s
  | Event.set_betting_title sid roomName title => set_betting_title sid roomName title s
  | Event.place_bet sid roomName ruleId now => place_bet sid roomName ruleId now s
  | Event.close_betting sid roomName => close_betting sid roomName s
  | Event.select_winner sid roomName ruleId => select_winner sid roomName ruleId s
  | Event.reset_betting sid roomName => reset_betting sid roomName s
  | Event.disconnect sid now => disconnect sid now s

/-- The room store that results from processing a list of events, starting
from the empty store of a freshly booted server. -/
def run (events : List Event) : Rooms :=
  List.foldl (fun s e => (step e s).1) [] events

/-- Room stores reachable from the empty store of a freshly booted server. -/
inductive Reachable : Rooms → Prop where
  | init : Reachable []
  | step (e : Event) {s : Rooms} : Reachable s → Reachable (step e s).1

/-- Host membership: the room's hostId is the id of some current participant. -/
def hostJoined (r : RoomData) : Prop :=
  ∃ p ∈ r.participants, p.id = r.hostId

/-- Result deduplication: no two gameResults entries share a participantId. -/
def resultsDedup (r : RoomData) : Prop :=
  r.gameResults.Pairwise (fun a b => a.participantId ≠ b.participantId)

/-- Bet deduplication: no two bets of the betting state share a bettor id. -/
def betsDedup (r : RoomData) : Prop :=
  ∀ bs, r.bettingState = some bs →
    bs.bets.Pairwise (fun a b => a.odrederId ≠ b.odrederId)

/-- The per-room invariant maintained by every handler. -/
def RoomInv (r : RoomData) : Prop :=
  hostJoined r ∧ resultsDedup r ∧ betsDedup r

/-- The store invariant: room names are unique (the store is a JS Map) and
every stored room satisfies the per-room invariant. -/
def Inv (s : Rooms) : Prop :=
  (s.map Prod.fst).Nodup ∧ ∀ nr ∈ s, RoomInv nr.2


/-- Concrete roulette room used to instantiate theorems: host "A" with one
rule and a non-host participant "B". -/
def roomAB : RoomData :=
  { participants := [{ id := "A", name := "Alice" }, { id := "B", name := "Bob" }]
    rules := [{ id := "1", label := "Pizza", weight := 1 }]
    status := Status.waiting
    hostId := "A"
    gameMode := GameMode.all_results
    drawings := []
    gameResults := []
    roomType := RoomType.roulette
    bettingState := none }

/-- Concrete betting state with one bet by "B" on rule "1". -/
def bsBet : BettingState :=
  { bets := [{ odrederId := "B", odrerName := "Bob", ruleId := "1", timestamp := 5 }]
    bettingOpen := true
    winningRuleId := none
    bettingTitle := "내기" }

/-- Concrete betting room: host "H", participants "H" and "B". -/
def roomBet : RoomData :=
  { participants := [{ id := "H", name := "Hana" }, { id := "B", name := "Bob" }]
    rules := [{ id := "1", label := "Pizza", weight := 1 },
              { id := "2", label := "Chicken", weight := 1 }]
    status := Status.waiting
    hostId := "H"
    gameMode := GameMode.all_results
    drawings := []
    gameResults := []
    roomType := RoomType.betting
    bettingState := some bsBet }

/-- Concrete store holding the two example rooms. -/
def exStore : Rooms := [("room1", roomAB), ("bet1", roomBet)]

/-- Concrete game result reported by the host "A". -/
def g1 : GameResult :=
  { participantId := "A", participantName := "Alice", ruleId := "1",
    ruleLabel := "Pizza", order := 1, timestamp := 10 }

/-- Concrete event trace: "A" creates room "room1" and reports one result. -/
def evs1 : List Event :=
  [Event.join_room "A" "room1" "Alice" none 0,
   Event.report_result "A" "room1" g1]

/-- The state of "room1" after running `evs1`. -/
def roomAfter1 : RoomData :=
  { participants := [{ id := "A", name := "Alice" }]
    rules := []
    status := Status.waiting
    hostId := "A"
    gameMode := GameMode.all_results
    drawings := []
    gameResults := [g1]
    roomType := RoomType.roulette
    bettingState := none }

/-- Concrete event trace: a betting room where the host closes betting. -/
def evsBet : List Event :=
  [Event.join_room "H" "bet1" "Hana" (some RoomType.betting) 0,
   Event.join_room "B" "bet1" "Bob" none 1,
   Event.close_betting "H" "bet1"]

/-- The state of "bet1" after running `evsBet`. -/
def roomBetClosed : RoomData :=
  { participants := [{ id := "H", name := "Hana" }, { id := "B", name := "Bob" }]
    rules := []
    status := Status.waiting
    hostId := "H"
    gameMode := GameMode.all_results
    drawings := []
    gameResults := []
    roomType := RoomType.betting
    bettingState := some { bets := [], bettingOpen := false, winningRuleId := none,
                           bettingTitle := "내기" } }

/-- The bet object constructed by the place_bet handler (part_008 lines
645-650). -/
def mkBet (sid odrerName ruleId : String) (now : Nat) : Bet :=
  { odrederId := sid, odrerName := odrerName, ruleId := ruleId, timestamp := now }

/-! ### Lemmas about the room store operations -/

theorem Rooms.get_cons (name n : String) (r0 : RoomData) (rest : Rooms) :
    Rooms.get name ((n, r0) :: rest) =
      if n = name then some r0 else Rooms.get name rest := rfl

theorem keys_ne_of_any_false {s : Rooms} {name : String}
    (h : s.any (fun nr => nr.1 = name) = false) :
    ∀ a ∈ s, a.1 ≠ name := by
  intro a ha hc
  have : s.any (fun nr => nr.1 = name) = true :=
    List.any_eq_true.mpr ⟨a, ha, by simp [hc]⟩
  simp [this] at h

theorem Rooms.get_map_replace (name : String) (r : RoomData) :
    ∀ s : Rooms, s.any (fun nr => nr.1 = name) = true →
      Rooms.get name (s.map (fun nr => if nr.1 = name then (name, r) else nr)) = some r
  | [], h => by simp at h
  | (n, r0) :: rest, h => by
    simp only [List.map_cons]
    by_cases hn : (n, r0).1 = name
    · rw [if_pos hn, Rooms.get_cons, if_pos rfl]
    · rw [if_neg hn]
      have hrest : rest.any (fun nr => nr.1 = name) = true := by
        rw [List.any_cons] at h
        simpa [hn] using h
      rw [Rooms.get_cons, if_neg hn]
      exact Rooms.get_map_replace name r rest hrest

theorem Rooms.get_map_replace_ne {name1 name : String} (r : RoomData)
    (h : name1 ≠ name) :
    ∀ s : Rooms,
      Rooms.get name1 (s.map (fun nr => if nr.1 = name then (name, r) else nr)) =
        Rooms.get name1 s
  | [] => rfl
  | (n, r0) :: rest => by
    simp only [List.map_cons]
    by_cases hn : (n, r0).1 = name
    · rw [if_pos hn, Rooms.get_cons, if_neg (Ne.symm h), Rooms.get_cons,
        if_neg (show ¬ n = name1 from fun hc => h (hc ▸ hn)),
        Rooms.get_map_replace_ne r h rest]
    · rw [if_neg hn, Rooms.get_cons, Rooms.get_cons,
        Rooms.get_map_replace_ne r h rest]

theorem Rooms.get_append (name : String) :
    ∀ s1 s2 : Rooms,
      Rooms.get name (s1 ++ s2) = (Rooms.get name s1).or (Rooms.get name s2)
  | [], s2 => by simp [Rooms.get]
  | (n, r0) :: rest, s2 => by
    rw [List.cons_append, Rooms.get_cons, Rooms.get_cons]
    by_cases hn : n = name
    · rw [if_pos hn, if_pos hn, Option.or]
    · rw [if_neg hn, if_neg hn, Rooms.get_append name rest s2]

theorem Rooms.get_eq_none_of_any_false (name : String) :
    ∀ s : Rooms, s.any (fun nr => nr.1 = name) = false → Rooms.get name s = none
  | [], _ => rfl
  | (n, r0) :: rest, h => by
    have hall := keys_ne_of_any_false h
    have hn : ¬ n = name := hall (n, r0) (List.mem_cons_self _ _)
    have hrest : rest.any (fun nr => nr.1 = name) = false := by
      cases hx : rest.any (fun nr => nr.1 = name) with
      | false => rfl
      | true =>
        obtain ⟨a, ha, hkey⟩ := List.any_eq_true.mp hx
        exact absurd (by simpa using hkey) (hall a (List.mem_cons_of_mem _ ha))
    rw [Rooms.get_cons, if_neg hn]
    exact Rooms.get_eq_none_of_any_false name rest hrest

theorem Rooms.get_set_self (name : String) (r : RoomData) (s : Rooms) :
    Rooms.get name (Rooms.set name r s) = some r := by
  unfold Rooms.set
  split
  · exact Rooms.get_map_replace name r s (by assumption)
  · rename_i h
    have hfalse : s.any (fun nr => nr.1 = name) = false := by
      cases hx : s.any (fun nr => nr.1 = name) with
      | false => rfl
      | true => exact absurd hx h
    rw [Rooms.get_append, Rooms.get_eq_none_of_any_false name s hfalse,
      Rooms.get_cons, if_pos rfl]
    rfl

theorem Rooms.get_set_ne {name1 name : String} (r : RoomData) (s : Rooms)
    (h : name1 ≠ name) :
    Rooms.get name1 (Rooms.set name r s) = Rooms.get name1 s := by
  unfold Rooms.set
  split
  · exact Rooms.get_map_replace_ne r h s
  · rw [Rooms.get_append]
    have : Rooms.get name1 [(name, r)] = none := by
      rw [Rooms.get_cons, if_neg (Ne.symm h)]
      rfl
    rw [this]
    cases Rooms.get name1 s <;> rfl

theorem Rooms.del_cons (name n : String) (r0 : RoomData) (rest : Rooms) :
    Rooms.del name ((n, r0) :: rest) =
      if n = name then Rooms.del name rest
      else (n, r0) :: Rooms.del name rest := by
  by_cases hn : n = name
  · rw [if_pos hn]
    simp [Rooms.del, List.filter_cons, hn]
  · rw [if_neg hn]
    simp [Rooms.del, List.filter_cons, hn]

theorem Rooms.get_del_self (name : String) :
    ∀ s : Rooms, Rooms.get name (Rooms.del name s) = none
  | [] => rfl
  | (n, r0) :: rest => by
    rw [Rooms.del_cons]
    by_cases hn : n = name
    · rw [if_pos hn]
      exact Rooms.get_del_self name rest
    · rw [if_neg hn, Rooms.get_cons, if_neg hn]
      exact Rooms.get_del_self name rest

theorem Rooms.get_del_ne {name1 name : String} (h : name1 ≠ name) :
    ∀ s : Rooms, Rooms.get name1 (Rooms.del name s) = Rooms.get name1 s
  | [] => rfl
  | (n, r0) :: rest => by
    rw [Rooms.del_cons]
    by_cases hn : n = name
    · rw [if_pos hn, Rooms.get_cons,
        if_neg (show ¬ n = name1 from fun hc => h (hc ▸ hn))]
      exact Rooms.get_del_ne h rest
    · rw [if_neg hn, Rooms.get_cons, Rooms.get_cons]
      by_cases hn1 : n = name1
      · rw [if_pos hn1, if_pos hn1]
      · rw [if_neg hn1, if_neg hn1]
        exact Rooms.get_del_ne h rest

theorem Rooms.get_mem {name : String} {r : RoomData} :
    ∀ {s : Rooms}, Rooms.get name s = some r → (name, r) ∈ s
  | [], h => by simp [Rooms.get] at h
  | (n, r0) :: rest, h => by
    by_cases hn : n = name
    · subst hn
      rw [Rooms.get_cons, if_pos rfl] at h
      cases h
      exact List.mem_cons_self _ _
    · rw [Rooms.get_cons, if_neg hn] at h
      exact List.mem_cons_of_mem _ (Rooms.get_mem h)

theorem Rooms.mem_set {nr : String × RoomData} {name : String} {r : RoomData}
    {s : Rooms} (h : nr ∈ Rooms.set name r s) :
    (nr ∈ s ∧ nr.1 ≠ name) ∨ nr = (name, r) := by
  unfold Rooms.set at h
  split at h
  · obtain ⟨nr0, hmem, heq⟩ := List.mem_map.mp h
    by_cases hn : nr0.1 = name
    · right
      rw [if_pos hn] at heq
      exact heq.symm
    · left
      rw [if_neg hn] at heq
      subst heq
      exact ⟨hmem, hn⟩
  · rename_i hany
    have hfalse : s.any (fun nr2 => nr2.1 = name) = false := by
      cases hx : s.any (fun nr2 => nr2.1 = name) with
      | false => rfl
      | true => exact absurd hx hany
    rcases List.mem_append.mp h with h1 | h1
    · exact Or.inl ⟨h1, keys_ne_of_any_false hfalse nr h1⟩
    · right
      simpa using h1

theorem Rooms.mem_del {nr : String × RoomData} {name : String} {s : Rooms}
    (h : nr ∈ Rooms.del name s) : nr ∈ s :=
  List.mem_of_mem_filter h

theorem Rooms.keys_set_nodup {name : String} {r : RoomData} {s : Rooms}
    (h : (s.map Prod.fst).Nodup) :
    ((Rooms.set name r s).map Prod.fst).Nodup := by
  unfold Rooms.set
  split
  · have heq : (s.map (fun nr => if nr.1 = name then (name, r) else nr)).map Prod.fst =
        s.map Prod.fst := by
      rw [List.map_map]
      refine List.map_congr_left ?_
      intro a _
      by_cases hn : a.1 = name
      · simp only [Function.comp_apply, if_pos hn]
        exact hn.symm
      · simp only [Function.comp_apply, if_neg hn]
    rw [heq]
    exact h
  · rename_i hany
    have hfalse : s.any (fun nr2 => nr2.1 = name) = false := by
      cases hx : s.any (fun nr2 => nr2.1 = name) with
      | false => rfl
      | true => exact absurd hx hany
    have hnot : name ∉ s.map Prod.fst := by
      intro hc
      obtain ⟨nr0, hmem, hkey⟩ := List.mem_map.mp hc
      exact keys_ne_of_any_false hfalse nr0 hmem hkey
    simp [List.nodup_append, h, hnot]

theorem Rooms.keys_del_nodup {name : String} {s : Rooms}
    (h : (s.map Prod.fst).Nodup) :
    ((Rooms.del name s).map Prod.fst).Nodup :=
  h.sublist (List.Sublist.map Prod.fst (List.filter_sublist s))

theorem Rooms.get_eq_none_of_not_mem_keys {name : String} :
    ∀ {s : Rooms}, name ∉ s.map Prod.fst → Rooms.get name s = none
  | [], _ => rfl
  | (n, r0) :: rest, h => by
    rw [Rooms.get_cons,
      if_neg (show ¬ n = name from fun hc => h (by rw [List.map_cons, hc]; exact List.mem_cons_self _ _))]
    exact Rooms.get_eq_none_of_not_mem_keys
      (fun hc => h (by rw [List.map_cons]; exact List.mem_cons_of_mem _ hc))

/-! ### Lemmas about the disconnect handler -/

theorem disconnect_cons (sid : String) (now : Nat) (entry : String × RoomData)
    (rest : Rooms) :
    disconnect sid now (entry :: rest) =
      (match (disconnectRoom sid now entry).1 with
       | some e => e :: (disconnect sid now rest).1
       | none => (disconnect sid now rest).1,
       (disconnectRoom sid now entry).2 ++ (disconnect sid now rest).2) := rfl

theorem disconnectRoom_fst {sid : String} {now : Nat} {nr nr1 : String × RoomData}
    (h : (disconnectRoom sid now nr).1 = some nr1) : nr1.1 = nr.1 := by
  unfold disconnectRoom at h
  split at h
  · cases h; rfl
  · split at h
    · cases h
    · split at h
      · cases h
      · cases h; rfl

theorem disconnect_keys_sublist (sid : String) (now : Nat) :
    ∀ s : Rooms, ((disconnect sid now s).1.map Prod.fst).Sublist (s.map Prod.fst)
  | [] => by simp [disconnect]
  | entry :: rest => by
    rw [disconnect_cons]
    cases hd : (disconnectRoom sid now entry).1 with
    | none =>
      simp only []
      exact (disconnect_keys_sublist sid now rest).trans (List.sublist_cons_self _ _)
    | some e =>
      simp only [List.map_cons]
      have he : e.1 = entry.1 := disconnectRoom_fst hd
      rw [he]
      exact (disconnect_keys_sublist sid now rest).cons₂ _

theorem disconnect_get (sid : String) (now : Nat) (name : String) :
    ∀ s : Rooms, (s.map Prod.fst).Nodup →
      Rooms.get name (disconnect sid now s).1 =
        (Rooms.get name s).bind
          (fun room => ((disconnectRoom sid now (name, room)).1).map Prod.snd)
  | [], _ => rfl
  | (n, room0) :: rest, hnd => by
    have hnd0 := List.nodup_cons.mp (show (n :: rest.map Prod.fst).Nodup from hnd)
    rw [disconnect_cons]
    by_cases hn : n = name
    · subst hn
      rw [Rooms.get_cons, if_pos rfl]
      cases hd : (disconnectRoom sid now (n, room0)).1 with
      | some e =>
        simp only [hd]
        obtain ⟨e1, e2⟩ := e
        have he1 : e1 = n := by simpa using disconnectRoom_fst hd
        subst he1
        rw [Rooms.get_cons, if_pos rfl]
        simp [hd]
      | none =>
        simp only [hd]
        have hnone : Rooms.get n (disconnect sid now rest).1 = none :=
          Rooms.get_eq_none_of_not_mem_keys
            (fun hc => hnd0.1 ((disconnect_keys_sublist sid now rest).subset hc))
        rw [hnone]
        simp [hd]
    · rw [Rooms.get_cons, if_neg hn]
      cases hd : (disconnectRoom sid now (n, room0)).1 with
      | some e =>
        simp only [hd]
        obtain ⟨e1, e2⟩ := e
        have he1 : e1 = n := by simpa using disconnectRoom_fst hd
        subst he1
        rw [Rooms.get_cons, if_neg hn]
        exact disconnect_get sid now name rest hnd0.2
      | none =>
        simp only [hd]
        exact disconnect_get sid now name rest hnd0.2

theorem disconnect_emits (sid : String) (now : Nat) :
    ∀ s : Rooms,
      (disconnect sid now s).2 = s.flatMap (fun nr => (disconnectRoom sid now nr).2)
  | [] => rfl
  | entry :: rest => by
    rw [disconnect_cons, List.flatMap_cons, disconnect_emits sid now rest]

theorem mem_disconnect {sid : String} {now : Nat} {nr1 : String × RoomData} :
    ∀ {s : Rooms}, nr1 ∈ (disconnect sid now s).1 →
      ∃ nr0 ∈ s, (disconnectRoom sid now nr0).1 = some nr1
  | [], h => by simp [disconnect] at h
  | entry :: rest, h => by
    rw [disconnect_cons] at h
    cases hd : (disconnectRoom sid now entry).1 with
    | some e =>
      rw [hd] at h
      simp only [] at h
      rcases List.mem_cons.mp h with h1 | h1
      · exact ⟨entry, List.mem_cons_self _ _, hd.trans (congrArg some h1.symm)⟩
      · obtain ⟨nr0, hm, he⟩ := mem_disconnect h1
        exact ⟨nr0, List.mem_cons_of_mem _ hm, he⟩
    | none =>
      rw [hd] at h
      simp only [] at h
      obtain ⟨nr0, hm, he⟩ := mem_disconnect h
      exact ⟨nr0, List.mem_cons_of_mem _ hm, he⟩

/-! ### The store invariant is preserved by every handler -/

theorem Inv.get {s : Rooms} {name : String} {r : RoomData} (h : Inv s)
    (hget : Rooms.get name s = some r) : RoomInv r :=
  h.2 (name, r) (Rooms.get_mem hget)

theorem Inv.of_set {s : Rooms} {name : String} {r : RoomData} (h : Inv s)
    (hr : RoomInv r) : Inv (Rooms.set name r s) := by
  refine ⟨Rooms.keys_set_nodup h.1, ?_⟩
  intro nr hmem
  rcases Rooms.mem_set hmem with ⟨h1, _⟩ | h1
  · exact h.2 nr h1
  · rw [h1]
    exact hr

theorem Inv.of_del {s : Rooms} {name : String} (h : Inv s) :
    Inv (Rooms.del name s) :=
  ⟨Rooms.keys_del_nodup h.1, fun nr hmem => h.2 nr (Rooms.mem_del hmem)⟩

theorem disconnectRoom_inv {sid : String} {now : Nat} {nr0 nr1 : String × RoomData}
    (h : RoomInv nr0.2) (he : (disconnectRoom sid now nr0).1 = some nr1) :
    RoomInv nr1.2 := by
  unfold disconnectRoom at he
  split at he
  · cases he
    exact h
  · rename_i participant hf
    split at he
    · cases he
    · rename_i hh
      split at he
      · cases he
      · cases he
        refine ⟨?_, h.2.1, h.2.2⟩
        obtain ⟨p, hp, hpid⟩ := h.1
        have hps : ¬ ((fun q : Participant => decide (q.id = sid)) p = true) := by
          simp only [decide_eq_true_eq]
          rw [hpid]
          exact fun hc => hh hc.symm
        have hmem : p ∈ List.eraseP (fun q : Participant => decide (q.id = sid))
            nr0.2.participants :=
          (@List.mem_eraseP_of_neg Participant
            (fun q : Participant => decide (q.id = sid)) p nr0.2.participants hps).mpr hp
        exact ⟨p, hmem, hpid⟩

theorem Inv.of_disconnect {s : Rooms} {sid : String} {now : Nat} (h : Inv s) :
    Inv (disconnect sid now s).1 := by
  refine ⟨h.1.sublist (disconnect_keys_sublist sid now s), ?_⟩
  intro nr hmem
  obtain ⟨nr0, hm, he⟩ := mem_disconnect hmem
  exact disconnectRoom_inv (h.2 nr0 hm) he

theorem RoomInv.with_betting {room : RoomData} (h : RoomInv room) {bs1 : BettingState}
    (hbets : bs1.bets.Pairwise (fun a b => a.odrederId ≠ b.odrederId)) :
    RoomInv { room with bettingState := some bs1 } := by
  refine ⟨h.1, h.2.1, ?_⟩
  intro bs2 heq
  have hb : bs1 = bs2 := by simpa using heq
  subst hb
  exact hbets

theorem betsPairwise_filter_push {bets : List Bet} (sid : String)
    (h : bets.Pairwise (fun a b => a.odrederId ≠ b.odrederId)) (nb : Bet)
    (hnb : nb.odrederId = sid) :
    ((bets.filter (fun b => b.odrederId ≠ sid)) ++ [nb]).Pairwise
      (fun a b => a.odrederId ≠ b.odrederId) := by
  rw [List.pairwise_append]
  refine ⟨h.sublist (List.filter_sublist _), List.pairwise_singleton _ _, ?_⟩
  intro a ha b hb
  have hb1 : b = nb := by simpa using hb
  rw [hb1, hnb]
  have hf := (List.mem_filter.mp ha).2
  simpa using hf

theorem resultsPairwise_push {rs : List GameResult} (g : GameResult)
    (h : rs.Pairwise (fun a b => a.participantId ≠ b.participantId))
    (hnew : rs.any (fun r => r.participantId = g.participantId) = false) :
    (rs ++ [g]).Pairwise (fun a b => a.participantId ≠ b.participantId) := by
  rw [List.pairwise_append]
  refine ⟨h, List.pairwise_singleton _ _, ?_⟩
  intro a ha b hb
  have hb1 : b = g := by simpa using hb
  rw [hb1]
  intro hc
  have hx : rs.any (fun r => r.participantId = g.participantId) = true :=
    List.any_eq_true.mpr ⟨a, ha, by simp [hc]⟩
  rw [hx] at hnew
  cases hnew

theorem inv_join_room {s : Rooms} (h : Inv s) (sid roomName userName : String)
    (roomType : Option RoomType) (now : Nat) :
    Inv (join_room sid roomName userName roomType now s).1 := by
  by_cases h0 : (Rooms.get roomName s).isSome
  · obtain ⟨room0, hget⟩ := Option.isSome_iff_exists.mp h0
    simp only [join_room, hget, Option.isSome_some, eq_self_iff_true, if_true]
    refine h.of_set ?_
    obtain ⟨⟨p, hp, hid⟩, hres, hbets⟩ := h.get hget
    exact ⟨⟨p, List.mem_append_left _ hp, hid⟩, hres, hbets⟩
  · have hnone : Rooms.get roomName s = none := Option.not_isSome_iff_eq_none.mp h0
    simp only [join_room, hnone, Option.isSome_none, Bool.false_eq_true, if_false,
      Rooms.get_set_self]
    constructor
    · exact Rooms.keys_set_nodup (Rooms.keys_set_nodup h.1)
    · intro nr hmem
      rcases Rooms.mem_set hmem with ⟨h1, hk⟩ | h1
      · rcases Rooms.mem_set h1 with ⟨h2, _⟩ | h2
        · exact h.2 nr h2
        · exact absurd (by rw [h2]) hk
      · rw [h1]
        by_cases hb : roomType.getD RoomType.roulette = RoomType.betting
        · simp only [if_pos hb]
          refine ⟨⟨{ id := sid, name := userName }, by simp, rfl⟩,
            List.Pairwise.nil, ?_⟩
          intro bs heq
          have hbs := Option.some.inj heq
          exact hbs ▸ List.Pairwise.nil
        · simp only [if_neg hb]
          refine ⟨⟨{ id := sid, name := userName }, by simp, rfl⟩,
            List.Pairwise.nil, ?_⟩
          intro bs heq
          simp at heq

theorem inv_request_host_status {s : Rooms} (h : Inv s) (sid roomName : String) :
    Inv (request_host_status sid roomName s).1 := by
  simp only [request_host_status]
  split
  · exact h
  · exact h

theorem inv_set_game_mode {s : Rooms} (h : Inv s) (sid roomName : String)
    (mode : GameMode) : Inv (set_game_mode sid roomName mode s).1 := by
  simp only [set_game_mode]
  split
  · exact h
  · rename_i room hget
    split
    · exact h
    · have hri := h.get hget
      exact h.of_set hri

theorem inv_create_rule {s : Rooms} (h : Inv s) (sid roomName : String)
    (rule : Rule) : Inv (create_rule sid roomName rule s).1 := by
  simp only [create_rule]
  split
  · exact h
  · rename_i room hget
    split
    · exact h
    · have hri := h.get hget
      exact h.of_set hri

theorem inv_start_game {s : Rooms} (h : Inv s) (sid roomName : String)
    (seed now : Nat) : Inv (start_game sid roomName seed now s).1 := by
  simp only [start_game]
  split
  · exact h
  · rename_i room hget
    split
    · exact h
    · split
      · exact h
      · have hri := h.get hget
        exact h.of_set hri

theorem inv_send_emoticon {s : Rooms} (h : Inv s) (sid roomName emoticon : String)
    (now : Nat) : Inv (send_emoticon sid roomName emoticon now s).1 := by
  simp only [send_emoticon]
  split
  · exact h
  · split
    · exact h
    · exact h

theorem inv_send_chat {s : Rooms} (h : Inv s) (sid roomName message : String)
    (now : Nat) : Inv (send_chat sid roomName message now s).1 := by
  simp only [send_chat]
  split
  · exact h
  · split
    · exact h
    · exact h

theorem inv_draw_object {s : Rooms} (h : Inv s) (sid roomName : String)
    (drawing : DrawingData) : Inv (draw_object sid roomName drawing s).1 := by
  simp only [draw_object]
  split
  · exact h
  · rename_i room hget
    have hri := h.get hget
    exact h.of_set hri

theorem inv_request_room_sync {s : Rooms} (h : Inv s) (sid roomName : String) :
    Inv (request_room_sync sid roomName s).1 := by
  simp only [request_room_sync]
  split
  · exact h
  · exact h

theorem inv_report_result {s : Rooms} (h : Inv s) (sid roomName : String)
    (result : GameResult) : Inv (report_result sid roomName result s).1 := by
  simp only [report_result]
  split
  · exact h
  · rename_i room hget
    split
    · split
      · exact h
      · rename_i hdup
        refine h.of_set ?_
        obtain ⟨hhost, hres, hbets⟩ := h.get hget
        refine ⟨hhost, resultsPairwise_push result hres ?_, hbets⟩
        cases hx : room.gameResults.any
            (fun r => r.participantId = result.participantId) with
        | false => rfl
        | true => exact absurd hx hdup
    · exact h

theorem inv_clear_results {s : Rooms} (h : Inv s) (sid roomName : String) :
    Inv (clear_results sid roomName s).1 := by
  simp only [clear_results]
  split
  · exact h
  · rename_i room hget
    split
    · refine h.of_set ?_
      obtain ⟨hhost, _, hbets⟩ := h.get hget
      exact ⟨hhost, List.Pairwise.nil, hbets⟩
    · exact h

theorem inv_game_finished {s : Rooms} (h : Inv s) (sid roomName : String) :
    Inv (game_finished sid roomName s).1 := by
  simp only [game_finished]
  split
  · exact h
  · rename_i room hget
    split
    · have hri := h.get hget
      exact h.of_set hri
    · exact h

theorem inv_kick_user {s : Rooms} (h : Inv s) (sid roomName userId : String)
    (now : Nat) : Inv (kick_user sid roomName userId now s).1 := by
  simp only [kick_user]
  split
  · exact h
  · rename_i room hget
    split
    · exact h
    · rename_i hh
      split
      · exact h
      · rename_i hself
        split
        · exact h
        · rename_i kickedUser hfind
          refine h.of_set ?_
          obtain ⟨⟨p, hp, hpid⟩, hres, hbets⟩ := h.get hget
          have hsid : sid = room.hostId := not_not.mp hh
          have hps : ¬ ((fun q : Participant => decide (q.id = userId)) p = true) := by
            simp only [decide_eq_true_eq]
            exact fun hc => hself (hc.symm.trans (hpid.trans hsid.symm))
          have hmem : p ∈ List.eraseP (fun q : Participant => decide (q.id = userId))
              room.participants :=
            (@List.mem_eraseP_of_neg Participant
              (fun q : Participant => decide (q.id = userId)) p room.participants
              hps).mpr hp
          exact ⟨⟨p, hmem, hpid⟩, hres, hbets⟩

theorem inv_destroy_room {s : Rooms} (h : Inv s) (sid roomName : String) :
    Inv (destroy_room sid roomName s).1 := by
  simp only [destroy_room]
  split
  · exact h
  · split
    · exact h
    · exact h.of_del

theorem inv_set_betting_title {s : Rooms} (h : Inv s) (sid roomName title : String) :
    Inv (set_betting_title sid roomName title s).1 := by
  simp only [set_betting_title]
  split
  · exact h
  · rename_i room hget
    split
    · split
      · exact h
      · rename_i bs hbs
        split
        · exact h
        · exact h.of_set (RoomInv.with_betting (h.get hget) ((h.get hget).2.2 bs hbs))
    · exact h

theorem inv_place_bet {s : Rooms} (h : Inv s) (sid roomName ruleId : String)
    (now : Nat) : Inv (place_bet sid roomName ruleId now s).1 := by
  simp only [place_bet]
  split
  · exact h
  · rename_i room hget
    split
    · split
      · exact h
      · rename_i bs hbs
        split
        · exact h
        · split
          · exact h
          · refine h.of_set (RoomInv.with_betting (h.get hget) ?_)
            exact betsPairwise_filter_push sid ((h.get hget).2.2 bs hbs) _ rfl
    · exact h

theorem inv_close_betting {s : Rooms} (h : Inv s) (sid roomName : String) :
    Inv (close_betting sid roomName s).1 := by
  simp only [close_betting]
  split
  · exact h
  · rename_i room hget
    split
    · split
      · exact h
      · rename_i bs hbs
        split
        · exact h
        · exact h.of_set (RoomInv.with_betting (h.get hget) ((h.get hget).2.2 bs hbs))
    · exact h

theorem inv_select_winner {s : Rooms} (h : Inv s) (sid roomName ruleId : String) :
    Inv (select_winner sid roomName ruleId s).1 := by
  simp only [select_winner]
  split
  · exact h
  · rename_i room hget
    split
    · split
      · exact h
      · rename_i bs hbs
        split
        · exact h
        · exact h.of_set (RoomInv.with_betting (h.get hget) ((h.get hget).2.2 bs hbs))
    · exact h

theorem inv_reset_betting {s : Rooms} (h : Inv s) (sid roomName : String) :
    Inv (reset_betting sid roomName s).1 := by
  simp only [reset_betting]
  split
  · exact h
  · rename_i room hget
    split
    · split
      · exact h
      · split
        · exact h
        · exact h.of_set (RoomInv.with_betting (h.get hget) List.Pairwise.nil)
    · exact h

theorem inv_step (e : Event) {s : Rooms} (h : Inv s) : Inv (step e s).1 := by
  cases e with
  | join_room sid roomName userName roomType now =>
    exact inv_join_room h sid roomName userName roomType now
  | request_host_status sid roomName => exact inv_request_host_status h sid roomName
  | set_game_mode sid roomName mode => exact inv_set_game_mode h sid roomName mode
  | create_rule sid roomName rule => exact inv_create_rule h sid roomName rule
  | start_game sid roomName seed now => exact inv_start_game h sid roomName seed now
  | send_emoticon sid roomName emoticon now =>
    exact inv_send_emoticon h sid roomName emoticon now
  | send_chat sid roomName message now => exact inv_send_chat h sid roomName message now
  | draw_object sid roomName drawing => exact inv_draw_object h sid roomName drawing
  | request_room_sync sid roomName => exact inv_request_room_sync h sid roomName
  | report_result sid roomName result => exact inv_report_result h sid roomName result
  | clear_results sid roomName => exact inv_clear_results h sid roomName
  | game_finished sid roomName => exact inv_game_finished h sid roomName
  | kick_user sid roomName userId now => exact inv_kick_user h sid roomName userId now
  | destroy_room sid roomName => exact inv_destroy_room h sid roomName
  | set_betting_title sid roomName title =>
    exact inv_set_betting_title h sid roomName title
  | place_bet sid roomName ruleId now => exact inv_place_bet h sid roomName ruleId now
  | close_betting sid roomName => exact inv_close_betting h sid roomName
  | select_winner sid roomName ruleId => exact inv_select_winner h sid roomName ruleId
  | reset_betting sid roomName => exact inv_reset_betting h sid roomName
  | disconnect sid now => exact h.of_disconnect

theorem inv_reachable {s : Rooms} (h : Reachable s) : Inv s := by
  induction h with
  | init => exact ⟨List.nodup_nil, fun nr hmem => absurd hmem (List.not_mem_nil nr)⟩
  | step e hr ih => exact inv_step e ih

theorem reachable_foldl (evs : List Event) :
    ∀ {s : Rooms}, Reachable s →
      Reachable (List.foldl (fun s e => (step e s).1) s evs) := by
  induction evs with
  | nil =>
    intro s hs
    simpa using hs
  | cons e rest ih =>
    intro s hs
    exact ih (Reachable.step e hs)

theorem reachable_run (evs : List Event) : Reachable (run evs) :=
  reachable_foldl evs Reachable.init

/-! ### Host identity: stability and origin -/

theorem some_inj_hostId {r r1 : RoomData} (h : some r = some r1) :
    r1.hostId = r.hostId := by
  cases h
  rfl

theorem get_set_cases {roomName name : String} {r1 r2 : RoomData} {s : Rooms}
    (hget1 : Rooms.get roomName (Rooms.set name r2 s) = some r1) :
    (roomName = name ∧ r1 = r2) ∨
      (roomName ≠ name ∧ Rooms.get roomName s = some r1) := by
  by_cases hn : roomName = name
  · subst hn
    rw [Rooms.get_set_self] at hget1
    exact Or.inl ⟨rfl, (Option.some.inj hget1).symm⟩
  · rw [Rooms.get_set_ne _ _ hn] at hget1
    exact Or.inr ⟨hn, hget1⟩

theorem get_del_cases {roomName name : String} {r1 : RoomData} {s : Rooms}
    (hget1 : Rooms.get roomName (Rooms.del name s) = some r1) :
    roomName ≠ name ∧ Rooms.get roomName s = some r1 := by
  by_cases hn : roomName = name
  · subst hn
    rw [Rooms.get_del_self] at hget1
    cases hget1
  · rw [Rooms.get_del_ne hn] at hget1
    exact ⟨hn, hget1⟩

theorem disconnectRoom_hostId {sid : String} {now : Nat} {nr nr1 : String × RoomData}
    (h : (disconnectRoom sid now nr).1 = some nr1) : nr1.2.hostId = nr.2.hostId := by
  unfold disconnectRoom at h
  split at h
  · cases h; rfl
  · split at h
    · cases h
    · split at h
      · cases h
      · cases h; rfl

theorem step_hostId_stable (e : Event) {s : Rooms} (hinv : Inv s)
    {roomName : String} {r r1 : RoomData} (hget : Rooms.get roomName s = some r)
    (hget1 : Rooms.get roomName (step e s).1 = some r1) : r1.hostId = r.hostId := by
  cases e with
  | join_room sid rn userName roomType now =>
    by_cases h0 : (Rooms.get rn s).isSome
    · obtain ⟨room0, hget'⟩ := Option.isSome_iff_exists.mp h0
      simp only [step, join_room, hget', Option.isSome_some, eq_self_iff_true,
        if_true] at hget1
      rcases get_set_cases hget1 with ⟨hn, hr1⟩ | ⟨hn, hr1⟩
      · subst hn
        injection (hget.symm.trans hget') with hr
        rw [hr1, ← hr]
      · exact some_inj_hostId (hget.symm.trans hr1)
    · have hnone : Rooms.get rn s = none := Option.not_isSome_iff_eq_none.mp h0
      have hne : roomName ≠ rn := fun hc => by
        rw [hc, hnone] at hget
        cases hget
      simp only [step, join_room, hnone, Option.isSome_none, Bool.false_eq_true,
        if_false, Rooms.get_set_self] at hget1
      rw [Rooms.get_set_ne _ _ hne, Rooms.get_set_ne _ _ hne] at hget1
      exact some_inj_hostId (hget.symm.trans hget1)
  | request_host_status sid rn =>
    cases hget' : Rooms.get rn s with
    | none =>
      simp only [step, request_host_status, hget'] at hget1
      exact some_inj_hostId (hget.symm.trans hget1)
    | some room =>
      simp only [step, request_host_status, hget'] at hget1
      exact some_inj_hostId (hget.symm.trans hget1)
  | set_game_mode sid rn mode =>
    cases hget' : Rooms.get rn s with
    | none =>
      simp only [step, set_game_mode, hget'] at hget1
      exact some_inj_hostId (hget.symm.trans hget1)
    | some room =>
      simp only [step, set_game_mode, hget'] at hget1
      repeat' split at hget1
      all_goals
        first
        | exact some_inj_hostId (hget.symm.trans hget1)
        | (rcases get_set_cases hget1 with ⟨hn, hr1⟩ | ⟨hn, hr1⟩
           · subst hn
             injection (hget.symm.trans hget') with hr
             rw [hr1, ← hr]
           · exact some_inj_hostId (hget.symm.trans hr1))
  | create_rule sid rn rule =>
    cases hget' : Rooms.get rn s with
    | none =>
      simp only [step, create_rule, hget'] at hget1
      exact some_inj_hostId (hget.symm.trans hget1)
    | some room =>
      simp only [step, create_rule, hget'] at hget1
      repeat' split at hget1
      all_goals
        first
        | exact some_inj_hostId (hget.symm.trans hget1)
        | (rcases get_set_cases hget1 with ⟨hn, hr1⟩ | ⟨hn, hr1⟩
           · subst hn
             injection (hget.symm.trans hget') with hr
             rw [hr1, ← hr]
           · exact some_inj_hostId (hget.symm.trans hr1))
  | start_game sid rn seed now =>
    cases hget' : Rooms.get rn s with
    | none =>
      simp only [step, start_game, hget'] at hget1
      exact some_inj_hostId (hget.symm.trans hget1)
    | some room =>
      simp only [step, start_game, hget'] at hget1
      repeat' split at hget1
      all_goals
        first
        | exact some_inj_hostId (hget.symm.trans hget1)
        | (rcases get_set_cases hget1 with ⟨hn, hr1⟩ | ⟨hn, hr1⟩
           · subst hn
             injection (hget.symm.trans hget') with hr
             rw [hr1, ← hr]
           · exact some_inj_hostId (hget.symm.trans hr1))
  | send_emoticon sid rn emoticon now =>
    cases hget' : Rooms.get rn s with
    | none =>
      simp only [step, send_emoticon, hget'] at hget1
      exact some_inj_hostId (hget.symm.trans hget1)
    | some room =>
      simp only [step, send_emoticon, hget'] at hget1
      repeat' split at hget1
      all_goals exact some_inj_hostId (hget.symm.trans hget1)
  | send_chat sid rn message now =>
    cases hget' : Rooms.get rn s with
    | none =>
      simp only [step, send_chat, hget'] at hget1
      exact some_inj_hostId (hget.symm.trans hget1)
    | some room =>
      simp only [step, send_chat, hget'] at hget1
      repeat' split at hget1
      all_goals exact some_inj_hostId (hget.symm.trans hget1)
  | draw_object sid rn drawing =>
    cases hget' : Rooms.get rn s with
    | none =>
      simp only [step, draw_object, hget'] at hget1
      exact some_inj_hostId (hget.symm.trans hget1)
    | some room =>
      simp only [step, draw_object, hget'] at hget1
      rcases get_set_cases hget1 with ⟨hn, hr1⟩ | ⟨hn, hr1⟩
      · subst hn
        injection (hget.symm.trans hget') with hr
        rw [hr1, ← hr]
      · exact some_inj_hostId (hget.symm.trans hr1)
  | request_room_sync sid rn =>
    cases hget' : Rooms.get rn s with
    | none =>
      simp only [step, request_room_sync, hget'] at hget1
      exact some_inj_hostId (hget.symm.trans hget1)
    | some room =>
      simp only [step, request_room_sync, hget'] at hget1
      exact some_inj_hostId (hget.symm.trans hget1)
  | report_result sid rn result =>
    cases hget' : Rooms.get rn s with
    | none =>
      simp only [step, report_result, hget'] at hget1
      exact some_inj_hostId (hget.symm.trans hget1)
    | some room =>
      simp only [step, report_result, hget'] at hget1
      repeat' split at hget1
      all_goals
        first
        | exact some_inj_hostId (hget.symm.trans hget1)
        | (rcases get_set_cases hget1 with ⟨hn, hr1⟩ | ⟨hn, hr1⟩
           · subst hn
             injection (hget.symm.trans hget') with hr
             rw [hr1, ← hr]
           · exact some_inj_hostId (hget.symm.trans hr1))
  | clear_results sid rn =>
    cases hget' : Rooms.get rn s with
    | none =>
      simp only [step, clear_results, hget'] at hget1
      exact some_inj_hostId (hget.symm.trans hget1)
    | some room =>
      simp only [step, clear_results, hget'] at hget1
      repeat' split at hget1
      all_goals
        first
        | exact some_inj_hostId (hget.symm.trans hget1)
        | (rcases get_set_cases hget1 with ⟨hn, hr1⟩ | ⟨hn, hr1⟩
           · subst hn
             injection (hget.symm.trans hget') with hr
             rw [hr1, ← hr]
           · exact some_inj_hostId (hget.symm.trans hr1))
  | game_finished sid rn =>
    cases hget' : Rooms.get rn s with
    | none =>
      simp only [step, game_finished, hget'] at hget1
      exact some_inj_hostId (hget.symm.trans hget1)
    | some room =>
      simp only [step, game_finished, hget'] at hget1
      repeat' split at hget1
      all_goals
        first
        | exact some_inj_hostId (hget.symm.trans hget1)
        | (rcases get_set_cases hget1 with ⟨hn, hr1⟩ | ⟨hn, hr1⟩
           · subst hn
             injection (hget.symm.trans hget') with hr
             rw [hr1, ← hr]
           · exact some_inj_hostId (hget.symm.trans hr1))
  | kick_user sid rn userId now =>
    cases hget' : Rooms.get rn s with
    | none =>
      simp only [step, kick_user, hget'] at hget1
      exact some_inj_hostId (hget.symm.trans hget1)
    | some room =>
      simp only [step, kick_user, hget'] at hget1
      repeat' split at hget1
      all_goals
        first
        | exact some_inj_hostId (hget.symm.trans hget1)
        | (rcases get_set_cases hget1 with ⟨hn, hr1⟩ | ⟨hn, hr1⟩
           · subst hn
             injection (hget.symm.trans hget') with hr
             rw [hr1, ← hr]
           · exact some_inj_hostId (hget.symm.trans hr1))
  | destroy_room sid rn =>
    cases hget' : Rooms.get rn s with
    | none =>
      simp only [step, destroy_room, hget'] at hget1
      exact some_inj_hostId (hget.symm.trans hget1)
    | some room =>
      simp only [step, destroy_room, hget'] at hget1
      repeat' split at hget1
      all_goals
        first
        | exact some_inj_hostId (hget.symm.trans hget1)
        | (obtain ⟨hn, hr1⟩ := get_del_cases hget1
           exact some_inj_hostId (hget.symm.trans hr1))
  | set_betting_title sid rn title =>
    cases hget' : Rooms.get rn s with
    | none =>
      simp only [step, set_betting_title, hget'] at hget1
      exact some_inj_hostId (hget.symm.trans hget1)
    | some room =>
      simp only [step, set_betting_title, hget'] at hget1
      repeat' split at hget1
      all_goals
        first
        | exact some_inj_hostId (hget.symm.trans hget1)
        | (rcases get_set_cases hget1 with ⟨hn, hr1⟩ | ⟨hn, hr1⟩
           · subst hn
             injection (hget.symm.trans hget') with hr
             rw [hr1, ← hr]
           · exact some_inj_hostId (hget.symm.trans hr1))
  | place_bet sid rn ruleId now =>
    cases hget' : Rooms.get rn s with
    | none =>
      simp only [step, place_bet, hget'] at hget1
      exact some_inj_hostId (hget.symm.trans hget1)
    | some room =>
      simp only [step, place_bet, hget'] at hget1
      repeat' split at hget1
      all_goals
        first
        | exact some_inj_hostId (hget.symm.trans hget1)
        | (rcases get_set_cases hget1 with ⟨hn, hr1⟩ | ⟨hn, hr1⟩
           · subst hn
             injection (hget.symm.trans hget') with hr
             rw [hr1, ← hr]
           · exact some_inj_hostId (hget.symm.trans hr1))
  | close_betting sid rn =>
    cases hget' : Rooms.get rn s with
    | none =>
      simp only [step, close_betting, hget'] at hget1
      exact some_inj_hostId (hget.symm.trans hget1)
    | some room =>
      simp only [step, close_betting, hget'] at hget1
      repeat' split at hget1
      all_goals
        first
        | exact some_inj_hostId (hget.symm.trans hget1)
        | (rcases get_set_cases hget1 with ⟨hn, hr1⟩ | ⟨hn, hr1⟩
           · subst hn
             injection (hget.symm.trans hget') with hr
             rw [hr1, ← hr]
           · exact some_inj_hostId (hget.symm.trans hr1))
  | select_winner sid rn ruleId =>
    cases hget' : Rooms.get rn s with
    | none =>
      simp only [step, select_winner, hget'] at hget1
      exact some_inj_hostId (hget.symm.trans hget1)
    | some room =>
      simp only [step, select_winner, hget'] at hget1
      repeat' split at hget1
      all_goals
        first
        | exact some_inj_hostId (hget.symm.trans hget1)
        | (rcases get_set_cases hget1 with ⟨hn, hr1⟩ | ⟨hn, hr1⟩
           · subst hn
             injection (hget.symm.trans hget') with hr
             rw [hr1, ← hr]
           · exact some_inj_hostId (hget.symm.trans hr1))
  | reset_betting sid rn =>
    cases hget' : Rooms.get rn s with
    | none =>
      simp only [step, reset_betting, hget'] at hget1
      exact some_inj_hostId (hget.symm.trans hget1)
    | some room =>
      simp only [step, reset_betting, hget'] at hget1
      repeat' split at hget1
      all_goals
        first
        | exact some_inj_hostId (hget.symm.trans hget1)
        | (rcases get_set_cases hget1 with ⟨hn, hr1⟩ | ⟨hn, hr1⟩
           · subst hn
             injection (hget.symm.trans hget') with hr
             rw [hr1, ← hr]
           · exact some_inj_hostId (hget.symm.trans hr1))
  | disconnect sid now =>
    have hd := disconnect_get sid now roomName s hinv.1
    simp only [step] at hget1
    rw [hd, hget] at hget1
    simp only [Option.some_bind] at hget1
    cases hmap : (disconnectRoom sid now (roomName, r)).1 with
    | none =>
      rw [hmap] at hget1
      cases hget1
    | some nr1 =>
      rw [hmap] at hget1
      simp only [Option.map_some'] at hget1
      injection hget1 with h2
      rw [← h2]
      exact disconnectRoom_hostId hmap

theorem step_new_room (e : Event) {s : Rooms} (hinv : Inv s)
    {roomName : String} {r1 : RoomData} (hget : Rooms.get roomName s = none)
    (hget1 : Rooms.get roomName (step e s).1 = some r1) :
    ∃ sid userName roomType now,
      e = Event.join_room sid roomName userName roomType now ∧
      r1.hostId = sid ∧ r1.participants = [{ id := sid, name := userName }] := by
  cases e with
  | join_room sid rn userName roomType now =>
    by_cases h0 : (Rooms.get rn s).isSome
    · obtain ⟨room0, hget2⟩ := Option.isSome_iff_exists.mp h0
      have hne : roomName ≠ rn := fun hc => by
        rw [hc, hget2] at hget
        cases hget
      simp only [step, join_room, hget2, Option.isSome_some, eq_self_iff_true,
        if_true] at hget1
      rw [Rooms.get_set_ne _ _ hne] at hget1
      exact Option.noConfusion (hget.symm.trans hget1)
    · have hnone : Rooms.get rn s = none := Option.not_isSome_iff_eq_none.mp h0
      by_cases hn : roomName = rn
      · subst hn
        simp only [step, join_room, hnone, Option.isSome_none, Bool.false_eq_true,
          if_false, Rooms.get_set_self] at hget1
        injection hget1 with h2
        refine ⟨sid, userName, roomType, now, rfl, ?_, ?_⟩
        · rw [← h2]
        · rw [← h2]
          simp
      · simp only [step, join_room, hnone, Option.isSome_none, Bool.false_eq_true,
          if_false, Rooms.get_set_self] at hget1
        rw [Rooms.get_set_ne _ _ hn, Rooms.get_set_ne _ _ hn] at hget1
        exact Option.noConfusion (hget.symm.trans hget1)
  | request_host_status sid rn =>
    cases hget2 : Rooms.get rn s with
    | none =>
      simp only [step, request_host_status, hget2] at hget1
      exact Option.noConfusion (hget.symm.trans hget1)
    | some room =>
      simp only [step, request_host_status, hget2] at hget1
      repeat' split at hget1
      all_goals
        first
        | exact Option.noConfusion (hget.symm.trans hget1)
        | (rcases get_set_cases hget1 with ⟨hn, hr1⟩ | ⟨hn, hr1⟩
           · subst hn
             rw [hget] at hget2
             exact Option.noConfusion hget2
           · exact Option.noConfusion (hget.symm.trans hr1))
        | (obtain ⟨hn, hr1⟩ := get_del_cases hget1
           exact Option.noConfusion (hget.symm.trans hr1))
  | set_game_mode sid rn mode =>
    cases hget2 : Rooms.get rn s with
    | none =>
      simp only [step, set_game_mode, hget2] at hget1
      exact Option.noConfusion (hget.symm.trans hget1)
    | some room =>
      simp only [step, set_game_mode, hget2] at hget1
      repeat' split at hget1
      all_goals
        first
        | exact Option.noConfusion (hget.symm.trans hget1)
        | (rcases get_set_cases hget1 with ⟨hn, hr1⟩ | ⟨hn, hr1⟩
           · subst hn
             rw [hget] at hget2
             exact Option.noConfusion hget2
           · exact Option.noConfusion (hget.symm.trans hr1))
        | (obtain ⟨hn, hr1⟩ := get_del_cases hget1
           exact Option.noConfusion (hget.symm.trans hr1))
  | create_rule sid rn rule =>
    cases hget2 : Rooms.get rn s with
    | none =>
      simp only [step, create_rule, hget2] at hget1
      exact Option.noConfusion (hget.symm.trans hget1)
    | some room =>
      simp only [step, create_rule, hget2] at hget1
      repeat' split at hget1
      all_goals
        first
        | exact Option.noConfusion (hget.symm.trans hget1)
        | (rcases get_set_cases hget1 with ⟨hn, hr1⟩ | ⟨hn, hr1⟩
           · subst hn
             rw [hget] at hget2
             exact Option.noConfusion hget2
           · exact Option.noConfusion (hget.symm.trans hr1))
        | (obtain ⟨hn, hr1⟩ := get_del_cases hget1
           exact Option.noConfusion (hget.symm.trans hr1))
  | start_game sid rn seed now =>
    cases hget2 : Rooms.get rn s with
    | none =>
      simp only [step, start_game, hget2] at hget1
      exact Option.noConfusion (hget.symm.trans hget1)
    | some room =>
      simp only [step, start_game, hget2] at hget1
      repeat' split at hget1
      all_goals
        first
        | exact Option.noConfusion (hget.symm.trans hget1)
        | (rcases get_set_cases hget1 with ⟨hn, hr1⟩ | ⟨hn, hr1⟩
           · subst hn
             rw [hget] at hget2
             exact Option.noConfusion hget2
           · exact Option.noConfusion (hget.symm.trans hr1))
        | (obtain ⟨hn, hr1⟩ := get_del_cases hget1
           exact Option.noConfusion (hget.symm.trans hr1))
  | send_emoticon sid rn emoticon now =>
    cases hget2 : Rooms.get rn s with
    | none =>
      simp only [step, send_emoticon, hget2] at hget1
      exact Option.noConfusion (hget.symm.trans hget1)
    | some room =>
      simp only [step, send_emoticon, hget2] at hget1
      repeat' split at hget1
      all_goals
        first
        | exact Option.noConfusion (hget.symm.trans hget1)
        | (rcases get_set_cases hget1 with ⟨hn, hr1⟩ | ⟨hn, hr1⟩
           · subst hn
             rw [hget] at hget2
             exact Option.noConfusion hget2
           · exact Option.noConfusion (hget.symm.trans hr1))
        | (obtain ⟨hn, hr1⟩ := get_del_cases hget1
           exact Option.noConfusion (hget.symm.trans hr1))
  | send_chat sid rn message now =>
    cases hget2 : Rooms.get rn s with
    | none =>
      simp only [step, send_chat, hget2] at hget1
      exact Option.noConfusion (hget.symm.trans hget1)
    | some room =>
      simp only [step, send_chat, hget2] at hget1
      repeat' split at hget1
      all_goals
        first
        | exact Option.noConfusion (hget.symm.trans hget1)
        | (rcases get_set_cases hget1 with ⟨hn, hr1⟩ | ⟨hn, hr1⟩
           · subst hn
             rw [hget] at hget2
             exact Option.noConfusion hget2
           · exact Option.noConfusion (hget.symm.trans hr1))
        | (obtain ⟨hn, hr1⟩ := get_del_cases hget1
           exact Option.noConfusion (hget.symm.trans hr1))
  | draw_object sid rn drawing =>
    cases hget2 : Rooms.get rn s with
    | none =>
      simp only [step, draw_object, hget2] at hget1
      exact Option.noConfusion (hget.symm.trans hget1)
    | some room =>
      simp only [step, draw_object, hget2] at hget1
      repeat' split at hget1
      all_goals
        first
        | exact Option.noConfusion (hget.symm.trans hget1)
        | (rcases get_set_cases hget1 with ⟨hn, hr1⟩ | ⟨hn, hr1⟩
           · subst hn
             rw [hget] at hget2
             exact Option.noConfusion hget2
           · exact Option.noConfusion (hget.symm.trans hr1))
        | (obtain ⟨hn, hr1⟩ := get_del_cases hget1
           exact Option.noConfusion (hget.symm.trans hr1))
  | request_room_sync sid rn =>
    cases hget2 : Rooms.get rn s with
    | none =>
      simp only [step, request_room_sync, hget2] at hget1
      exact Option.noConfusion (hget.symm.trans hget1)
    | some room =>
      simp only [step, request_room_sync, hget2] at hget1
      repeat' split at hget1
      all_goals
        first
        | exact Option.noConfusion (hget.symm.trans hget1)
        | (rcases get_set_cases hget1 with ⟨hn, hr1⟩ | ⟨hn, hr1⟩
           · subst hn
             rw [hget] at hget2
             exact Option.noConfusion hget2
           · exact Option.noConfusion (hget.symm.trans hr1))
        | (obtain ⟨hn, hr1⟩ := get_del_cases hget1
           exact Option.noConfusion (hget.symm.trans hr1))
  | report_result sid rn result =>
    cases hget2 : Rooms.get rn s with
    | none =>
      simp only [step, report_result, hget2] at hget1
      exact Option.noConfusion (hget.symm.trans hget1)
    | some room =>
      simp only [step, report_result, hget2] at hget1
      repeat' split at hget1
      all_goals
        first
        | exact Option.noConfusion (hget.symm.trans hget1)
        | (rcases get_set_cases hget1 with ⟨hn, hr1⟩ | ⟨hn, hr1⟩
           · subst hn
             rw [hget] at hget2
             exact Option.noConfusion hget2
           · exact Option.noConfusion (hget.symm.trans hr1))
        | (obtain ⟨hn, hr1⟩ := get_del_cases hget1
           exact Option.noConfusion (hget.symm.trans hr1))
  | clear_results sid rn =>
    cases hget2 : Rooms.get rn s with
    | none =>
      simp only [step, clear_results, hget2] at hget1
      exact Option.noConfusion (hget.symm.trans hget1)
    | some room =>
      simp only [step, clear_results, hget2] at hget1
      repeat' split at hget1
      all_goals
        first
        | exact Option.noConfusion (hget.symm.trans hget1)
        | (rcases get_set_cases hget1 with ⟨hn, hr1⟩ | ⟨hn, hr1⟩
           · subst hn
             rw [hget] at hget2
             exact Option.noConfusion hget2
           · exact Option.noConfusion (hget.symm.trans hr1))
        | (obtain ⟨hn, hr1⟩ := get_del_cases hget1
           exact Option.noConfusion (hget.symm.trans hr1))
  | game_finished sid rn =>
    cases hget2 : Rooms.get rn s with
    | none =>
      simp only [step, game_finished, hget2] at hget1
      exact Option.noConfusion (hget.symm.trans hget1)
    | some room =>
      simp only [step, game_finished, hget2] at hget1
      repeat' split at hget1
      all_goals
        first
        | exact Option.noConfusion (hget.symm.trans hget1)
        | (rcases get_set_cases hget1 with ⟨hn, hr1⟩ | ⟨hn, hr1⟩
           · subst hn
             rw [hget] at hget2
             exact Option.noConfusion hget2
           · exact Option.noConfusion (hget.symm.trans hr1))
        | (obtain ⟨hn, hr1⟩ := get_del_cases hget1
           exact Option.noConfusion (hget.symm.trans hr1))
  | kick_user sid rn userId now =>
    cases hget2 : Rooms.get rn s with
    | none =>
      simp only [step, kick_user, hget2] at hget1
      exact Option.noConfusion (hget.symm.trans hget1)
    | some room =>
      simp only [step, kick_user, hget2] at hget1
      repeat' split at hget1
      all_goals
        first
        | exact Option.noConfusion (hget.symm.trans hget1)
        | (rcases get_set_cases hget1 with ⟨hn, hr1⟩ | ⟨hn, hr1⟩
           · subst hn
             rw [hget] at hget2
             exact Option.noConfusion hget2
           · exact Option.noConfusion (hget.symm.trans hr1))
        | (obtain ⟨hn, hr1⟩ := get_del_cases hget1
           exact Option.noConfusion (hget.symm.trans hr1))
  | destroy_room sid rn =>
    cases hget2 : Rooms.get rn s with
    | none =>
      simp only [step, destroy_room, hget2] at hget1
      exact Option.noConfusion (hget.symm.trans hget1)
    | some room =>
      simp only [step, destroy_room, hget2] at hget1
      repeat' split at hget1
      all_goals
        first
        | exact Option.noConfusion (hget.symm.trans hget1)
        | (rcases get_set_cases hget1 with ⟨hn, hr1⟩ | ⟨hn, hr1⟩
           · subst hn
             rw [hget] at hget2
             exact Option.noConfusion hget2
           · exact Option.noConfusion (hget.symm.trans hr1))
        | (obtain ⟨hn, hr1⟩ := get_del_cases hget1
           exact Option.noConfusion (hget.symm.trans hr1))
  | set_betting_title sid rn title =>
    cases hget2 : Rooms.get rn s with
    | none =>
      simp only [step, set_betting_title, hget2] at hget1
      exact Option.noConfusion (hget.symm.trans hget1)
    | some room =>
      simp only [step, set_betting_title, hget2] at hget1
      repeat' split at hget1
      all_goals
        first
        | exact Option.noConfusion (hget.symm.trans hget1)
        | (rcases get_set_cases hget1 with ⟨hn, hr1⟩ | ⟨hn, hr1⟩
           · subst hn
             rw [hget] at hget2
             exact Option.noConfusion hget2
           · exact Option.noConfusion (hget.symm.trans hr1))
        | (obtain ⟨hn, hr1⟩ := get_del_cases hget1
           exact Option.noConfusion (hget.symm.trans hr1))
  | place_bet sid rn ruleId now =>
    cases hget2 : Rooms.get rn s with
    | none =>
      simp only [step, place_bet, hget2] at hget1
      exact Option.noConfusion (hget.symm.trans hget1)
    | some room =>
      simp only [step, place_bet, hget2] at hget1
      repeat' split at hget1
      all_goals
        first
        | exact Option.noConfusion (hget.symm.trans hget1)
        | (rcases get_set_cases hget1 with ⟨hn, hr1⟩ | ⟨hn, hr1⟩
           · subst hn
             rw [hget] at hget2
             exact Option.noConfusion hget2
           · exact Option.noConfusion (hget.symm.trans hr1))
        | (obtain ⟨hn, hr1⟩ := get_del_cases hget1
           exact Option.noConfusion (hget.symm.trans hr1))
  | close_betting sid rn =>
    cases hget2 : Rooms.get rn s with
    | none =>
      simp only [step, close_betting, hget2] at hget1
      exact Option.noConfusion (hget.symm.trans hget1)
    | some room =>
      simp only [step, close_betting, hget2] at hget1
      repeat' split at hget1
      all_goals
        first
        | exact Option.noConfusion (hget.symm.trans hget1)
        | (rcases get_set_cases hget1 with ⟨hn, hr1⟩ | ⟨hn, hr1⟩
           · subst hn
             rw [hget] at hget2
             exact Option.noConfusion hget2
           · exact Option.noConfusion (hget.symm.trans hr1))
        | (obtain ⟨hn, hr1⟩ := get_del_cases hget1
           exact Option.noConfusion (hget.symm.trans hr1))
  | select_winner sid rn ruleId =>
    cases hget2 : Rooms.get rn s with
    | none =>
      simp only [step, select_winner, hget2] at hget1
      exact Option.noConfusion (hget.symm.trans hget1)
    | some room =>
      simp only [step, select_winner, hget2] at hget1
      repeat' split at hget1
      all_goals
        first
        | exact Option.noConfusion (hget.symm.trans hget1)
        | (rcases get_set_cases hget1 with ⟨hn, hr1⟩ | ⟨hn, hr1⟩
           · subst hn
             rw [hget] at hget2
             exact Option.noConfusion hget2
           · exact Option.noConfusion (hget.symm.trans hr1))
        | (obtain ⟨hn, hr1⟩ := get_del_cases hget1
           exact Option.noConfusion (hget.symm.trans hr1))
  | reset_betting sid rn =>
    cases hget2 : Rooms.get rn s with
    | none =>
      simp only [step, reset_betting, hget2] at hget1
      exact Option.noConfusion (hget.symm.trans hget1)
    | some room =>
      simp only [step, reset_betting, hget2] at hget1
      repeat' split at hget1
      all_goals
        first
        | exact Option.noConfusion (hget.symm.trans hget1)
        | (rcases get_set_cases hget1 with ⟨hn, hr1⟩ | ⟨hn, hr1⟩
           · subst hn
             rw [hget] at hget2
             exact Option.noConfusion hget2
           · exact Option.noConfusion (hget.symm.trans hr1))
        | (obtain ⟨hn, hr1⟩ := get_del_cases hget1
           exact Option.noConfusion (hget.symm.trans hr1))
  | disconnect sid now =>
    simp only [step] at hget1
    rw [disconnect_get sid now roomName s hinv.1, hget] at hget1
    exact Option.noConfusion hget1

/-! ### Claim theorems -/

/-- C1 counterexample: a clear_results request on an existing room by the
non-host connection "B" emits nothing at all — in particular no error
message addressed to the requester — contradicting the claim that every
privileged action is rejected with an error sent to the requester. -/
theorem C1_counterexample :
    Rooms.get "room1" exStore = some roomAB ∧
    "B" ≠ roomAB.hostId ∧
    (clear_results "B" "room1" exStore).2 = [] := by
  refine ⟨by decide, by decide, by decide⟩

/-- C1 (amended): for a non-host request on an existing room, set_game_mode,
create_rule, start_game, kick_user, destroy_room and — in a betting room —
set_betting_title, close_betting, select_winner and reset_betting unicast
exactly one host-only error to the requester, mutate nothing and broadcast
nothing; clear_results and game_finished are dropped silently: no mutation,
no broadcast, and no error message either. -/
theorem C1_host_only_rejection (s : Rooms) (sid roomName : String) (r : RoomData)
    (mode : GameMode) (rule : Rule) (userId title ruleId : String) (seed now : Nat)
    (hget : Rooms.get roomName s = some r) (hh : sid ≠ r.hostId) :
    set_game_mode sid roomName mode s =
      (s, [Emit.toCaller (Msg.error_message "방장만 게임 모드를 변경할 수 있습니다.")]) ∧
    create_rule sid roomName rule s =
      (s, [Emit.toCaller (Msg.error_message "방장만 룰/벌칙을 추가할 수 있습니다.")]) ∧
    start_game sid roomName seed now s =
      (s, [Emit.toCaller (Msg.error_message "방장만 게임을 시작할 수 있습니다.")]) ∧
    kick_user sid roomName userId now s =
      (s, [Emit.toCaller (Msg.error_message "방장만 사용자를 강제 퇴장시킬 수 있습니다.")]) ∧
    destroy_room sid roomName s =
      (s, [Emit.toCaller (Msg.error_message "방장만 방을 파괴할 수 있습니다.")]) ∧
    clear_results sid roomName s = (s, []) ∧
    game_finished sid roomName s = (s, []) ∧
    (r.roomType = RoomType.betting → ∀ bs, r.bettingState = some bs →
      set_betting_title sid roomName title s =
        (s, [Emit.toCaller (Msg.error_message "방장만 내기 제목을 설정할 수 있습니다.")]) ∧
      close_betting sid roomName s =
        (s, [Emit.toCaller (Msg.error_message "방장만 베팅을 마감할 수 있습니다.")]) ∧
      select_winner sid roomName ruleId s =
        (s, [Emit.toCaller (Msg.error_message "방장만 당첨 결과를 선택할 수 있습니다.")]) ∧
      reset_betting sid roomName s =
        (s, [Emit.toCaller (Msg.error_message "방장만 내기를 초기화할 수 있습니다.")])) := by
  refine ⟨?_, ?_, ?_, ?_, ?_, ?_, ?_, ?_⟩
  · simp only [set_game_mode, hget, if_pos hh]
  · simp only [create_rule, hget, if_pos hh]
  · simp only [start_game, hget, if_pos hh]
  · simp only [kick_user, hget, if_pos hh]
  · simp only [destroy_room, hget, if_pos hh]
  · simp only [clear_results, hget, if_neg (fun hc => hh hc)]
  · simp only [game_finished, hget, if_neg (fun hc => hh hc)]
  · intro hrt bs hbs
    refine ⟨?_, ?_, ?_, ?_⟩
    · simp only [set_betting_title, hget, if_pos hrt, hbs, if_pos hh]
    · simp only [close_betting, hget, if_pos hrt, hbs, if_pos hh]
    · simp only [select_winner, hget, if_pos hrt, hbs, if_pos hh]
    · simp only [reset_betting, hget, if_pos hrt, hbs, if_pos hh]

/-- C1 witness: the amended theorem instantiated at the betting room of the
concrete store, requested by the non-host participant "B". -/
theorem C1_host_only_rejection_witness :
    set_game_mode "B" "bet1" GameMode.all_results exStore =
      (exStore,
       [Emit.toCaller (Msg.error_message "방장만 게임 모드를 변경할 수 있습니다.")]) ∧
    clear_results "B" "bet1" exStore = (exStore, []) ∧
    close_betting "B" "bet1" exStore =
      (exStore, [Emit.toCaller (Msg.error_message "방장만 베팅을 마감할 수 있습니다.")]) :=
  have h := C1_host_only_rejection exStore "B" "bet1" roomBet GameMode.all_results
    { id := "9", label := "x", weight := 1 } "C" "t" "1" 0 0 (by decide) (by decide)
  ⟨h.1, h.2.2.2.2.2.2.1, (h.2.2.2.2.2.2.2 (by decide) bsBet (by decide)).2.1⟩

/-- C4: for a start_game on an existing room by the host: if the rule list
is non-empty the status becomes playing and the freshly generated seed is
broadcast to the whole room in a game_started message; if the rule list is
empty a precondition error is unicast to the requester only and the store —
in particular the room status, rules and any seed — is unchanged. -/
theorem C4_start_game (s : Rooms) (sid roomName : String) (seed now : Nat)
    (r : RoomData) (hget : Rooms.get roomName s = some r)
    (hhost : sid = r.hostId) :
    (r.rules ≠ [] →
      (start_game sid roomName seed now s).1 =
        Rooms.set roomName { r with status := Status.playing } s ∧
      Rooms.get roomName (start_game sid roomName seed now s).1 =
        some { r with status := Status.playing } ∧
      (start_game sid roomName seed now s).2 =
        [Emit.toChan roomName (Msg.game_started (toString now) seed)]) ∧
    (r.rules = [] →
      start_game sid roomName seed now s =
        (s, [Emit.toCaller (Msg.error_message "최소 1개 이상의 룰을 추가해주세요.")])) := by
  have hne : ¬ sid ≠ r.hostId := fun hc => hc hhost
  constructor
  · intro hrules
    have hlen : ¬ r.rules.length = 0 := fun hc => hrules (List.length_eq_zero.mp hc)
    simp only [start_game, hget, if_neg hne, if_neg hlen]
    simp [Rooms.get_set_self]
  · intro hrules
    have hlen : r.rules.length = 0 := by rw [hrules]; rfl
    simp only [start_game, hget, if_neg hne, if_pos hlen]

/-- C4 witness: the theorem instantiated at the concrete roulette room,
whose rule list has one entry, started by its host "A". -/
theorem C4_start_game_witness :
    (start_game "A" "room1" 42 7 exStore).2 =
      [Emit.toChan "room1" (Msg.game_started (toString 7) 42)] :=
  ((C4_start_game exStore "A" "room1" 42 7 roomAB (by decide) (by decide)).1
    (by decide)).2.2

/-- C6 (the code violates the claim): join_room appends the caller to the
participant list unconditionally, so a connection that sends join_room for
the same room twice appears twice; evaluated at a concrete double join by
socket "A" the room holds two participant entries with the same id. -/
theorem C6_duplicate_join :
    (Rooms.get "room1" (run
        [Event.join_room "A" "room1" "Alice" none 0,
         Event.join_room "A" "room1" "Alice" none 1])).map
      (fun r => r.participants) =
      some [{ id := "A", name := "Alice" }, { id := "A", name := "Alice" }] := by
  decide

/-- C7: request_room_sync on an existing room, in any store produced by a
sequence of events, returns the store unchanged and unicasts to the
requester a single room_sync snapshot whose fields equal the room's current
field values; nothing is broadcast. -/
theorem C7_room_sync (evs : List Event) (sid roomName : String) (r : RoomData)
    (hget : Rooms.get roomName (run evs) = some r) :
    request_room_sync sid roomName (run evs) =
      (run evs,
       [Emit.toCaller (Msg.room_sync
         { participants := r.participants, rules := r.rules, drawings := r.drawings,
           gameMode := r.gameMode, status := r.status, hostId := r.hostId,
           gameResults := r.gameResults, roomType := r.roomType,
           bettingState := r.bettingState })]) := by
  simp only [request_room_sync, hget]

/-- C7 witness: the theorem instantiated right after the trace in which "A"
created "room1" and reported one result. -/
theorem C7_room_sync_witness :
    request_room_sync "B" "room1" (run evs1) =
      (run evs1,
       [Emit.toCaller (Msg.room_sync
         { participants := roomAfter1.participants, rules := roomAfter1.rules,
           drawings := roomAfter1.drawings, gameMode := roomAfter1.gameMode,
           status := roomAfter1.status, hostId := roomAfter1.hostId,
           gameResults := roomAfter1.gameResults, roomType := roomAfter1.roomType,
           bettingState := roomAfter1.bettingState })]) :=
  C7_room_sync evs1 "B" "room1" roomAfter1 (by decide)

/-- C10: a report_result on an existing room that is not accepted — either
because the status is not playing and the sender is not the host, or because
gameResults already holds an entry for that participantId — leaves the store
unchanged and emits nothing at all: no error and no acknowledgement. -/
theorem C10_report_silent (s : Rooms) (sid roomName : String)
    (result : GameResult) (r : RoomData)
    (hget : Rooms.get roomName s = some r)
    (hrej : ¬(r.status = Status.playing ∨ sid = r.hostId) ∨
      r.gameResults.any (fun g => g.participantId = result.participantId) = true) :
    report_result sid roomName result s = (s, []) := by
  simp only [report_result, hget]
  by_cases hacc : r.status = Status.playing ∨ sid = r.hostId
  · rw [if_pos hacc]
    rcases hrej with hrej | hdup
    · exact absurd hacc hrej
    · rw [if_pos hdup]
  · rw [if_neg hacc]

/-- C10 witness: the theorem instantiated at the waiting roulette room with
the non-host sender "B". -/
theorem C10_report_silent_witness :
    report_result "B" "room1" g1 exStore = (exStore, []) :=
  C10_report_silent exStore "B" "room1" g1 roomAB (by decide)
    (Or.inl (by decide))

/-- C2: in every reachable store, the hostId of every room is the id of a
currently joined participant; no step changes the hostId of a room that
exists before and after it; and any step that brings a room into existence
is a join_room whose caller becomes the hostId and the sole initial
participant — so hostId is the connection id of the first joiner that
created the room, never reassigned for as long as the room exists. -/
theorem C2_host_first_joiner (s : Rooms) (hs : Reachable s) :
    (∀ roomName r, Rooms.get roomName s = some r →
      ∃ p ∈ r.participants, p.id = r.hostId) ∧
    (∀ e roomName r r1, Rooms.get roomName s = some r →
      Rooms.get roomName (step e s).1 = some r1 → r1.hostId = r.hostId) ∧
    (∀ e roomName r1, Rooms.get roomName s = none →
      Rooms.get roomName (step e s).1 = some r1 →
      ∃ sid userName roomType now,
        e = Event.join_room sid roomName userName roomType now ∧
        r1.hostId = sid ∧ r1.participants = [{ id := sid, name := userName }]) := by
  refine ⟨?_, ?_, ?_⟩
  · intro roomName r hget
    exact ((inv_reachable hs).get hget).1
  · intro e roomName r r1 hget hget1
    exact step_hostId_stable e (inv_reachable hs) hget hget1
  · intro e roomName r1 hget hget1
    exact step_new_room e (inv_reachable hs) hget hget1

/-- C2 witness: the host-membership part of the theorem evaluated on the
store reached by the trace `evs1`, whose room was created by "A". -/
theorem C2_host_first_joiner_witness :
    ∃ p ∈ roomAfter1.participants, p.id = roomAfter1.hostId :=
  (C2_host_first_joiner (run evs1) (reachable_run evs1)).1 "room1" roomAfter1
    (by decide)

/-- C3: in every reachable store no two gameResults entries of a room share
a participantId; a report_result whose participantId already appears leaves
the whole store unchanged and emits nothing; and an accepted report (status
playing or host sender, fresh participantId) appends exactly that one entry
to the room's gameResults. -/
theorem C3_results_dedup (s : Rooms) (hs : Reachable s) :
    (∀ roomName r, Rooms.get roomName s = some r →
      r.gameResults.Pairwise (fun a b => a.participantId ≠ b.participantId)) ∧
    (∀ sid roomName result r, Rooms.get roomName s = some r →
      r.gameResults.any (fun g => g.participantId = result.participantId) = true →
      report_result sid roomName result s = (s, [])) ∧
    (∀ sid roomName result r, Rooms.get roomName s = some r →
      (r.status = Status.playing ∨ sid = r.hostId) →
      r.gameResults.any (fun g => g.participantId = result.participantId) = false →
      (report_result sid roomName result s).1 =
        Rooms.set roomName { r with gameResults := r.gameResults ++ [result] } s ∧
      Rooms.get roomName (report_result sid roomName result s).1 =
        some { r with gameResults := r.gameResults ++ [result] }) := by
  refine ⟨?_, ?_, ?_⟩
  · intro roomName r hget
    exact ((inv_reachable hs).get hget).2.1
  · intro sid roomName result r hget hdup
    simp only [report_result, hget]
    by_cases hacc : r.status = Status.playing ∨ sid = r.hostId
    · rw [if_pos hacc, if_pos hdup]
    · rw [if_neg hacc]
  · intro sid roomName result r hget hacc hdup
    simp only [report_result, hget, if_pos hacc,
      if_neg (show ¬ (r.gameResults.any
        (fun g => g.participantId = result.participantId) = true) by
          rw [hdup]; exact Bool.false_ne_true)]
    simp [Rooms.get_set_self]

/-- C3 witness: a second report for the already-recorded participantId of
`g1`, on the store reached by `evs1`, leaves the store unchanged and emits
nothing. -/
theorem C3_results_dedup_witness :
    report_result "A" "room1"
      { participantId := "A", participantName := "Alice", ruleId := "2",
        ruleLabel := "Chicken", order := 2, timestamp := 11 } (run evs1) =
      (run evs1, []) :=
  (C3_results_dedup (run evs1) (reachable_run evs1)).2.1 "A" "room1"
    { participantId := "A", participantName := "Alice", ruleId := "2",
      ruleLabel := "Chicken", order := 2, timestamp := 11 }
    roomAfter1 (by decide) (by decide)

/-- C5: for a disconnect of a connection that is a participant of a room:
if it is the host, the room is removed from the store and room_destroyed is
broadcast to the room, regardless of how many participants remain; if it is
a non-host participant, exactly that participant is removed (splice at its
first index) and the room is deleted precisely when the participant list
became empty. -/
theorem C5_disconnect_behavior (s : Rooms) (sid roomName : String) (now : Nat)
    (r : RoomData) (hnd : (s.map Prod.fst).Nodup)
    (hget : Rooms.get roomName s = some r)
    (hmem : ∃ p ∈ r.participants, p.id = sid) :
    (sid = r.hostId →
      Rooms.get roomName (disconnect sid now s).1 = none ∧
      Emit.toChan roomName Msg.room_destroyed ∈ (disconnect sid now s).2) ∧
    (sid ≠ r.hostId →
      (r.participants.eraseP (fun p => p.id = sid) = [] →
        Rooms.get roomName (disconnect sid now s).1 = none) ∧
      (r.participants.eraseP (fun p => p.id = sid) ≠ [] →
        Rooms.get roomName (disconnect sid now s).1 =
          some { r with
            participants := r.participants.eraseP (fun p => p.id = sid) })) := by
  have hfind0 : ∃ participant,
      r.participants.find? (fun p => p.id = sid) = some participant := by
    obtain ⟨p, hp, hpid⟩ := hmem
    have hsome : (r.participants.find? (fun q => q.id = sid)).isSome :=
      List.find?_isSome.mpr ⟨p, hp, by simp [hpid]⟩
    exact Option.isSome_iff_exists.mp hsome
  obtain ⟨participant, hfind⟩ := hfind0
  have hd := disconnect_get sid now roomName s hnd
  rw [hget] at hd
  simp only [Option.some_bind] at hd
  constructor
  · intro hhost
    rw [hhost] at hfind
    constructor
    · rw [hd]
      simp [disconnectRoom, hfind, hhost]
    · rw [disconnect_emits]
      refine List.mem_flatMap.mpr ⟨(roomName, r), Rooms.get_mem hget, ?_⟩
      simp [disconnectRoom, hfind, hhost]
  · intro hhost
    constructor
    · intro hempty
      rw [hd]
      simp [disconnectRoom, hfind, hhost, hempty]
    · intro hne
      have hlen : ¬ ((r.participants.eraseP (fun p => p.id = sid)).length = 0) :=
        fun hc => hne (List.length_eq_zero.mp hc)
      rw [hd]
      simp [disconnectRoom, hfind, hhost, hlen]

/-- C5 witness: the host "A" of the concrete roulette room disconnects while
the participant "B" remains; the room is gone and room_destroyed was
broadcast to the room channel. -/
theorem C5_disconnect_behavior_witness :
    Rooms.get "room1" (disconnect "A" 99 exStore).1 = none ∧
    Emit.toChan "room1" Msg.room_destroyed ∈ (disconnect "A" 99 exStore).2 :=
  (C5_disconnect_behavior exStore "A" "room1" 99 roomAB (by decide) (by decide)
    (by decide)).1 (by decide)

theorem selectWinners_mem (participants : List Participant) (ruleId : String)
    (bets : List Bet) (p : Participant) :
    p ∈ selectWinners participants ruleId bets ↔
      ∃ bet ∈ bets, bet.ruleId = ruleId ∧
        participants.find? (fun q => q.id = bet.odrederId) = some p := by
  unfold selectWinners
  rw [List.mem_filterMap]
  constructor
  · rintro ⟨bet, hbet, hf⟩
    split at hf
    · rename_i q hfind
      split at hf
      · rename_i hrid
        injection hf with h2
        exact ⟨bet, hbet, hrid, by rw [hfind, h2]⟩
      · cases hf
    · cases hf
  · rintro ⟨bet, hbet, hrid, hfind⟩
    exact ⟨bet, hbet, by simp [hfind, hrid]⟩

theorem selectLosers_mem (participants : List Participant) (ruleId : String)
    (bets : List Bet) (p : Participant) :
    p ∈ selectLosers participants ruleId bets ↔
      ∃ bet ∈ bets, bet.ruleId ≠ ruleId ∧
        participants.find? (fun q => q.id = bet.odrederId) = some p := by
  unfold selectLosers
  rw [List.mem_filterMap]
  constructor
  · rintro ⟨bet, hbet, hf⟩
    split at hf
    · rename_i q hfind
      split at hf
      · cases hf
      · rename_i hrid
        injection hf with h2
        exact ⟨bet, hbet, hrid, by rw [hfind, h2]⟩
    · cases hf
  · rintro ⟨bet, hbet, hrid, hfind⟩
    exact ⟨bet, hbet, by simp [hfind, if_neg hrid]⟩

/-- C8: select_winner by the host of a betting room broadcasts the updated
betting state and a betting_result whose winners are exactly the still
joined bettors whose bet carries the selected ruleId and whose losers are
exactly the still joined bettors whose bet carries another ruleId; every
winner or loser is a current participant, so a bettor who has left the room
appears in neither list. -/
theorem C8_select_winner (s : Rooms) (sid roomName ruleId : String)
    (r : RoomData) (bs : BettingState)
    (hget : Rooms.get roomName s = some r)
    (hrt : r.roomType = RoomType.betting)
    (hbs : r.bettingState = some bs)
    (hhost : sid = r.hostId) :
    (select_winner sid roomName ruleId s).2 =
      [Emit.toChan roomName
        (Msg.betting_state_updated { bs with winningRuleId := some ruleId }),
       Emit.toChan roomName (Msg.betting_result ruleId
         (selectWinners r.participants ruleId bs.bets)
         (selectLosers r.participants ruleId bs.bets))] ∧
    (∀ p : Participant,
      p ∈ selectWinners r.participants ruleId bs.bets ↔
        ∃ bet ∈ bs.bets, bet.ruleId = ruleId ∧
          r.participants.find? (fun q => q.id = bet.odrederId) = some p) ∧
    (∀ p : Participant,
      p ∈ selectLosers r.participants ruleId bs.bets ↔
        ∃ bet ∈ bs.bets, bet.ruleId ≠ ruleId ∧
          r.participants.find? (fun q => q.id = bet.odrederId) = some p) ∧
    (∀ p : Participant,
      p ∈ selectWinners r.participants ruleId bs.bets ∨
        p ∈ selectLosers r.participants ruleId bs.bets →
      p ∈ r.participants) := by
  have hne : ¬ sid ≠ r.hostId := fun hc => hc hhost
  refine ⟨?_, ?_, ?_, ?_⟩
  · simp only [select_winner, hget, if_pos hrt, hbs, if_neg hne]
  · intro p
    exact selectWinners_mem r.participants ruleId bs.bets p
  · intro p
    exact selectLosers_mem r.participants ruleId bs.bets p
  · intro p hp
    rcases hp with hp | hp
    · obtain ⟨bet, _, _, hfind⟩ :=
        (selectWinners_mem r.participants ruleId bs.bets p).mp hp
      exact List.mem_of_find?_eq_some hfind
    · obtain ⟨bet, _, _, hfind⟩ :=
        (selectLosers_mem r.participants ruleId bs.bets p).mp hp
      exact List.mem_of_find?_eq_some hfind

/-- C8 witness: the host "H" of the concrete betting room selects rule "1";
the emitted betting_result carries the winner and loser lists computed from
the current bets and the live participant list. -/
theorem C8_select_winner_witness :
    (select_winner "H" "bet1" "1" exStore).2 =
      [Emit.toChan "bet1"
        (Msg.betting_state_updated { bsBet with winningRuleId := some "1" }),
       Emit.toChan "bet1" (Msg.betting_result "1"
         (selectWinners roomBet.participants "1" bsBet.bets)
         (selectLosers roomBet.participants "1" bsBet.bets))] :=
  (C8_select_winner exStore "H" "bet1" "1" roomBet bsBet (by decide) (by decide)
    rfl (by decide)).1

/-- C9: a place_bet in a reachable betting room with betting closed is
answered with an error unicast to the requester and the store is unchanged;
with betting open and the requester a current participant, the requester's
previous bet is removed and exactly one new bet with the given ruleId is
appended, every other bettor's bets are untouched, and afterwards every
bettor id still has at most one active bet. -/
theorem C9_place_bet (s : Rooms) (sid roomName ruleId : String) (now : Nat)
    (r : RoomData) (bs : BettingState) (hs : Reachable s)
    (hget : Rooms.get roomName s = some r)
    (hrt : r.roomType = RoomType.betting)
    (hbs : r.bettingState = some bs) :
    (bs.bettingOpen = false →
      place_bet sid roomName ruleId now s =
        (s, [Emit.toCaller (Msg.error_message "베팅이 마감되었습니다.")])) ∧
    (∀ participant,
      bs.bettingOpen = true →
      r.participants.find? (fun p => p.id = sid) = some participant →
      (place_bet sid roomName ruleId now s).1 =
        Rooms.set roomName
          { r with bettingState := some { bs with
              bets := bs.bets.filter (fun b => b.odrederId ≠ sid) ++
                [mkBet sid participant.name ruleId now] } } s ∧
      (∀ b : Bet, b.odrederId ≠ sid →
        (b ∈ bs.bets.filter (fun b2 => b2.odrederId ≠ sid) ++
            [mkBet sid participant.name ruleId now] ↔ b ∈ bs.bets)) ∧
      (bs.bets.filter (fun b => b.odrederId ≠ sid) ++
          [mkBet sid participant.name ruleId now]).filter
          (fun b => b.odrederId = sid) =
        [mkBet sid participant.name ruleId now] ∧
      (bs.bets.filter (fun b => b.odrederId ≠ sid) ++
          [mkBet sid participant.name ruleId now]).Pairwise
        (fun a b => a.odrederId ≠ b.odrederId)) := by
  constructor
  · intro hclosed
    simp only [place_bet, hget, if_pos hrt, hbs, if_pos hclosed]
  · intro participant hopen hfind
    have hnc : ¬ (bs.bettingOpen = false) := by
      rw [hopen]
      simp
    refine ⟨?_, ?_, ?_, ?_⟩
    · simp only [place_bet, hget, if_pos hrt, hbs, if_neg hnc, hfind, mkBet]
    · intro b hbne
      constructor
      · intro hb
        rcases List.mem_append.mp hb with hb | hb
        · exact (List.mem_filter.mp hb).1
        · have hbb : b = mkBet sid participant.name ruleId now := by
            simpa using hb
          exact absurd (by rw [hbb]; rfl) hbne
      · intro hb
        exact List.mem_append_left _ (List.mem_filter.mpr ⟨hb, by simpa using hbne⟩)
    · rw [List.filter_append]
      have h1 : (bs.bets.filter (fun b => b.odrederId ≠ sid)).filter
          (fun b => b.odrederId = sid) = [] := by
        rw [List.filter_eq_nil_iff]
        intro b hb
        have hbp := (List.mem_filter.mp hb).2
        simpa using hbp
      rw [h1]
      simp [mkBet]
    · exact betsPairwise_filter_push sid
        (((inv_reachable hs).get hget).2.2 bs hbs) _ rfl

/-- C9 witness: after the trace `evsBet` in which the host closed betting, a
place_bet by the participant "B" is rejected with an error and the store is
unchanged. -/
theorem C9_place_bet_witness :
    place_bet "B" "bet1" "1" 50 (run evsBet) =
      (run evsBet, [Emit.toCaller (Msg.error_message "베팅이 마감되었습니다.")]) :=
  (C9_place_bet (run evsBet) "B" "bet1" "1" 50 roomBetClosed
    { bets := [], bettingOpen := false, winningRuleId := none, bettingTitle := "내기" }
    (reachable_run evsBet) (by decide) (by decide) (by decide)).1 rfl

end RouletteTogether
